import Mathlib

/-!
Verification of the distributed-database middleware (ddb-middleware).

This file gives a shallow embedding, in Lean 4, of the parts of the source
code that the specification claims talk about:

* `src/utils/helpers.py` — query classification (`parse_query_type`,
  `is_write_query`);
* `src/core/node.py` — the `_handle_query` routing decision;
* `src/monitoring/load_balancer.py` — round-robin node selection;
* `src/transaction/lock_manager.py` — the lock table, its grant predicate
  and its acquire/release operations;
* `src/transaction/two_phase_commit.py` — coordinator and participant of
  the two-phase-commit protocol;
* `src/transaction/transaction_manager.py` — the transaction registry;
* `src/communication/protocol.py` and `src/security/checksum.py` — the
  JSON message codec and its checksum.

Machine-level details that the claims do not depend on are modelled
explicitly and documented at each definition: wall-clock time is measured
in tenths of a second (the polling granularity of the lock manager), the
network is an oracle mapping a peer to its reply, and SHA-256 is a
deterministic stand-in function (the verified properties use only that the
hash is a deterministic function of its input).
-/

namespace DDB

/-! ## Query classification (`src/utils/helpers.py`)

Python `str.strip` and `str.upper` are modelled by `String.trim` and
`Char.toUpper`; the queries the system classifies are ASCII SQL keywords,
on which the two agree. -/

/-- The ASCII whitespace characters Python `str.strip` removes (the
non-ASCII whitespace it also strips never occurs in a SQL query of this
system). -/
def pyIsSpace (c : Char) : Bool :=
  c == ' ' || c == '\t' || c == '\n' || c == '\r' || c == '\x0b' ||
    c == '\x0c'

/-- Python `str.strip`: drop whitespace from both ends. -/
def pyStrip (s : List Char) : List Char :=
  ((s.dropWhile pyIsSpace).reverse.dropWhile pyIsSpace).reverse

/-- Whether `s` starts with the characters `kw`, as Python
`str.startswith` decides it. -/
def startsWithL : List Char → List Char → Bool
  | _, [] => true
  | [], _ :: _ => false
  | c :: cs, p :: ps => c == p && startsWithL cs ps

/-- Translation of `helpers.parse_query_type`: strip, uppercase
(`Char.toUpper` agrees with Python `str.upper` on ASCII), and classify by
the first keyword. -/
def parse_query_type (query : String) : String :=
  let q := (pyStrip query.toList).map Char.toUpper
  if startsWithL q "SELECT".toList then "SELECT"
  else if startsWithL q "INSERT".toList then "INSERT"
  else if startsWithL q "UPDATE".toList then "UPDATE"
  else if startsWithL q "DELETE".toList then "DELETE"
  else if startsWithL q "CREATE".toList then "CREATE"
  else if startsWithL q "DROP".toList then "DROP"
  else if startsWithL q "ALTER".toList then "ALTER"
  else if startsWithL q "TRUNCATE".toList then "TRUNCATE"
  else "UNKNOWN"

/-- Translation of `helpers.is_write_query`. -/
def is_write_query (query : String) : Bool :=
  let t := parse_query_type query
  t == "INSERT" || t == "UPDATE" || t == "DELETE" || t == "CREATE" ||
    t == "DROP" || t == "ALTER" || t == "TRUNCATE"

/-- Translation of `helpers.is_read_query`. -/
def is_read_query (query : String) : Bool :=
  parse_query_type query == "SELECT"

/-! ## Query routing (`Node._handle_query`, `src/core/node.py`)

`_handle_query` either forwards the query through `Node.execute_query`
(which sends it to the current coordinator when this node is not the
coordinator) or executes it locally through the `QueryExecutor`. The
routing decision depends only on the `from_coordinator` flag of the
message data and on the query text, so it is modelled as a function to a
two-valued route. -/

/-- The two ways `_handle_query` can dispatch a QUERY message. -/
inductive QueryRoute where
  /-- Handled via `Node.execute_query` (coordination / forwarding path). -/
  | viaExecuteQuery
  /-- Executed locally via `self.query_executor.execute`. -/
  | viaLocalExecutor
deriving DecidableEq, Repr

/-- Payload fields of a QUERY message that the routing decision reads.
`from_coordinator` is `data.get('from_coordinator', False)`: a message
whose data does not carry the flag has it `false`. -/
structure QueryMsgData where
  query : String
  from_coordinator : Bool
deriving Repr

/-- Translation of the routing decision in `Node._handle_query`:
`if not from_coordinator and is_write_query(query)` the node calls
`self.execute_query(query)`, otherwise it calls
`self.query_executor.execute(query, transaction_id)`. -/
def handle_query_route (d : QueryMsgData) : QueryRoute :=
  if !d.from_coordinator && is_write_query d.query then
    QueryRoute.viaExecuteQuery
  else
    QueryRoute.viaLocalExecutor

/-! ## Load balancer (`LoadBalancer._select_round_robin`,
`src/monitoring/load_balancer.py`)

Python `sorted` on a list of integers is modelled by insertion sort with
the `≤` order (stability is irrelevant on integers). The selection is
`sorted_nodes[current_index % len(sorted_nodes)]` followed by
`current_index += 1`; indexing a non-empty list is modelled with `getD`
(the default is never read when the list is non-empty). -/

/-- Translation of `LoadBalancer._select_round_robin`: returns the selected
node and the updated `current_index`. -/
def select_round_robin (available_nodes : List Int) (current_index : Nat) :
    Int × Nat :=
  let sorted_nodes := available_nodes.insertionSort (· ≤ ·)
  (sorted_nodes.getD (current_index % sorted_nodes.length) 0,
    current_index + 1)

/-- The nodes returned by `n` consecutive round-robin selections starting
at index `i` over an unchanged set of available nodes. -/
def round_robin_run (available_nodes : List Int) (i n : Nat) : List Int :=
  (List.range n).map fun j => (select_round_robin available_nodes (i + j)).1

/-! ## Lock manager (`src/transaction/lock_manager.py`)

Python dictionaries are modelled as association lists (`List (key × value)`)
so that `resource not in self.locks`, `del self.locks[resource]` and the
claim that the table never maps a resource to an empty list are all
expressible. `Lock.acquired_at` (a wall-clock timestamp used only by
`detect_deadlock`, which no claim mentions) is omitted. The Python `set`
of resources in `transaction_locks` is modelled as a duplicate-free list. -/

/-- Translation of `lock_manager.LockType`. -/
inductive LockType where
  | SHARED
  | EXCLUSIVE
deriving DecidableEq, Repr

/-- Translation of `lock_manager.Lock` (without the `acquired_at`
timestamp, which only `detect_deadlock` reads). -/
structure LockRec where
  lock_type : LockType
  transaction_id : String
deriving DecidableEq, Repr

/-- Dictionary lookup on an association list: the value at the first
matching key. -/
def lookupA {β : Type} (k : String) : List (String × β) → Option β
  | [] => none
  | (k', v) :: rest => if k' = k then some v else lookupA k rest

/-- Dictionary assignment `d[k] = v`: replace the value at the first
matching key, or append a fresh entry. -/
def setA {β : Type} (k : String) (v : β) : List (String × β) →
    List (String × β)
  | [] => [(k, v)]
  | (k', v') :: rest =>
    if k' = k then (k, v) :: rest else (k', v') :: setA k v rest

/-- Dictionary deletion `del d[k]`: drop the entries with key `k`. -/
def eraseA {β : Type} (k : String) (l : List (String × β)) :
    List (String × β) :=
  l.filter fun p => !(p.1 == k)

/-- The mutable state of `LockManager`: `locks` maps a resource to the list
of locks on it, `transaction_locks` maps a transaction to the set (as a
duplicate-free list) of resources it holds locks on. -/
structure LMState where
  locks : List (String × List LockRec)
  transaction_locks : List (String × List String)
deriving Repr

/-- The initial `LockManager` state: both tables empty. -/
def LMState.init : LMState := ⟨[], []⟩

/-- The body of `LockManager._can_acquire` on the list of existing locks
of the requested resource (the `existing_locks` local variable of the
source). -/
def can_acquire_on (existing_locks : List LockRec)
    (transaction_id : String) (lock_type : LockType) : Bool :=
  if existing_locks.isEmpty then true
  else
    let has_lock :=
      existing_locks.any fun l => l.transaction_id == transaction_id
    match lock_type with
    | LockType.SHARED =>
      if has_lock then true
      else existing_locks.all fun l => l.lock_type == LockType.SHARED
    | LockType.EXCLUSIVE =>
      if has_lock then
        existing_locks.all fun l => l.transaction_id == transaction_id
      else false

/-- Translation of `LockManager._can_acquire`: a missing resource entry is
the empty lock list. -/
def can_acquire (locks : List (String × List LockRec)) (resource : String)
    (transaction_id : String) (lock_type : LockType) : Bool :=
  can_acquire_on ((lookupA resource locks).getD []) transaction_id lock_type

/-- The state update performed by `LockManager.acquire_lock` when
`_can_acquire` grants the request: append the new lock to the resource
entry (creating it when absent) and add the resource to the transaction
index (set insertion). -/
def acquire_update (st : LMState) (resource transaction_id : String)
    (lock_type : LockType) : LMState :=
  let cur := (lookupA resource st.locks).getD []
  let locks' := setA resource (cur ++ [⟨lock_type, transaction_id⟩]) st.locks
  let curT := (lookupA transaction_id st.transaction_locks).getD []
  let curT' := if resource ∈ curT then curT else curT ++ [resource]
  ⟨locks', setA transaction_id curT' st.transaction_locks⟩

/-- Translation of `LockManager.acquire_lock`, state part: a granted
request updates the tables and returns `true`; a request that is never
granted times out with the state unchanged. In this sequential model no
other thread can change the table while `acquire_lock` polls, so the
grant predicate is decided on the entry state (the timing of the polling
loop is modelled separately by `acquire_lock_elapsed`). -/
def acquire_lock (st : LMState) (resource transaction_id : String)
    (lock_type : LockType) : Bool × LMState :=
  if can_acquire st.locks resource transaction_id lock_type then
    (true, acquire_update st resource transaction_id lock_type)
  else
    (false, st)

/-- Translation of `LockManager.release_lock`. -/
def release_lock (st : LMState) (resource transaction_id : String) :
    Bool × LMState :=
  match lookupA resource st.locks with
  | none => (false, st)
  | some ls =>
    let filtered := ls.filter fun l => !(l.transaction_id == transaction_id)
    let locks' :=
      if filtered.isEmpty then eraseA resource st.locks
      else setA resource filtered st.locks
    let tl' :=
      match lookupA transaction_id st.transaction_locks with
      | none => st.transaction_locks
      | some rs =>
        let rs' := rs.filter fun r => !(r == resource)
        if rs'.isEmpty then eraseA transaction_id st.transaction_locks
        else setA transaction_id rs' st.transaction_locks
    let released := ((lookupA resource locks').getD []).length < ls.length
    (released, ⟨locks', tl'⟩)

/-- Translation of `LockManager.release_all_locks`: iterate `release_lock`
over a snapshot of the resources owned by the transaction. -/
def release_all_locks (st : LMState) (transaction_id : String) : LMState :=
  match lookupA transaction_id st.transaction_locks with
  | none => st
  | some resources =>
    resources.foldl (fun s r => (release_lock s r transaction_id).2) st

/-- The `LockManager` states reachable from the initial state by any
sequence of `acquire_lock` (granted or refused), `release_lock` and
`release_all_locks` calls. -/
inductive LMReachable : LMState → Prop where
  | init : LMReachable LMState.init
  | acq {st} (r t : String) (m : LockType) :
      LMReachable st → LMReachable (acquire_lock st r t m).2
  | rel {st} (r t : String) :
      LMReachable st → LMReachable (release_lock st r t).2
  | relAll {st} (t : String) :
      LMReachable st → LMReachable (release_all_locks st t)

/-! ### Timed model of the acquire polling loop

`acquire_lock` reads its deadline as `timeout = timeout or
self.wait_timeout`: the Python `or` substitutes the 30-second default both
when `timeout` is `None` and when it is `0`. The loop then alternates a
grant check with a 0.1-second sleep and gives up once the elapsed time
reaches the deadline. Time is modelled in tenths of a second, so the
default `wait_timeout = 30` seconds is `300` ticks and each sleep is one
tick. -/

/-- Translation of `timeout = timeout or self.wait_timeout` (tenths of a
second): `none` models passing `None` (or omitting the argument), and `0`
is falsy in Python, so both select the 30-second default. -/
def effective_timeout (timeout : Option Nat) : Nat :=
  match timeout with
  | none => 300
  | some t => if t = 0 then 300 else t

/-- The polling loop of `acquire_lock` on a resource whose grantability
`can` does not change while polling: check the grant, then give up when
the elapsed time has reached the deadline, else sleep one tick and retry.
`left` is the number of ticks remaining until the deadline. -/
def acquire_poll (can : Bool) : Nat → Nat → Bool × Nat
  | left, elapsed =>
    if can then (true, elapsed)
    else
      match left with
      | 0 => (false, elapsed)
      | Nat.succ l => acquire_poll can l (elapsed + 1)

/-- Timed translation of `LockManager.acquire_lock`: the result together
with the elapsed time, in tenths of a second, after which the call
returns. -/
def acquire_lock_elapsed (st : LMState) (resource transaction_id : String)
    (lock_type : LockType) (timeout : Option Nat) : Bool × Nat :=
  acquire_poll (can_acquire st.locks resource transaction_id lock_type)
    (effective_timeout timeout) 0

/-- The grant predicate exactly as the specification words it, for
comparison with `can_acquire`: Shared is grantable iff no Exclusive lock
is held by another transaction or the requester already holds the
resource; Exclusive is grantable iff no other transaction holds any lock
on the resource. -/
def spec_grantable_on (ls : List LockRec) (transaction_id : String)
    (lock_type : LockType) : Prop :=
  match lock_type with
  | LockType.SHARED =>
    (¬ ∃ l ∈ ls, l.lock_type = LockType.EXCLUSIVE ∧
        l.transaction_id ≠ transaction_id) ∨
      (∃ l ∈ ls, l.transaction_id = transaction_id)
  | LockType.EXCLUSIVE =>
    ¬ ∃ l ∈ ls, l.transaction_id ≠ transaction_id

/-- The specification-worded grant predicate over the whole lock table. -/
def spec_grantable (locks : List (String × List LockRec)) (resource : String)
    (transaction_id : String) (lock_type : LockType) : Prop :=
  spec_grantable_on ((lookupA resource locks).getD []) transaction_id
    lock_type

/-! ## Message type constants (`src/communication/message_types.py`) -/

/-- Message type constant. -/
def TRANSACTION_PREPARE : String := "TRANSACTION_PREPARE"
/-- Message type constant. -/
def TRANSACTION_VOTE_YES : String := "TRANSACTION_VOTE_YES"
/-- Message type constant. -/
def TRANSACTION_VOTE_NO : String := "TRANSACTION_VOTE_NO"
/-- Message type constant. -/
def TRANSACTION_COMMIT : String := "TRANSACTION_COMMIT"
/-- Message type constant. -/
def TRANSACTION_ABORT : String := "TRANSACTION_ABORT"
/-- Message type constant. -/
def ACK : String := "ACK"
/-- Message type constant. -/
def ERROR : String := "ERROR"

/-! ## Two-phase commit, coordinator side
(`TwoPhaseCommitCoordinator`, `src/transaction/two_phase_commit.py`)

The network is abstracted by a reply oracle: for each participant node it
yields the outcome of the one `send_message(..., wait_for_response=True)`
call addressed to it during a phase. The coordinator sends each phase
message to every participant except itself; the trace of send attempts is
returned alongside the result so that claims about which message types
were broadcast are statable. -/

/-- A participant node configuration (`{'id': ..., 'ip': ..., 'port': ...}`). -/
structure PNode where
  id : Int
  ip : String
  port : Int
deriving DecidableEq, Repr

/-- The outcome of one `socket_client.send_message` call, as the
coordinator observes it: an exception, a falsy response (`None` or an
empty dict), or a response dict whose `type` field is `ty` (`none` when
the dict has no `type` key). -/
inductive ReplyOutcome where
  | err
  | noResp
  | resp (ty : Option String)
deriving DecidableEq, Repr

/-- The send attempts a phase makes: one message of type `ty` to every
participant other than the coordinator, in list order. -/
def sends_to_remotes (ty : String) (selfId : Int) (parts : List PNode) :
    List (String × Int) :=
  (parts.filter fun n => !(n.id == selfId)).map fun n => (ty, n.id)

/-- Translation of the vote-collection loop of
`TwoPhaseCommitCoordinator._phase1_prepare`: self counts as an implicit
YES; a `TRANSACTION_VOTE_YES` reply is a yes vote; a NO vote, a missing,
falsy or malformed reply, and a send error all count as no votes. Returns
`(votes_yes, votes_no)`; the loop appends are modelled by building the
lists front to back (no claim observes the order of the vote lists, only
their members and emptiness). -/
def phase1_prepare (selfId : Int) (prep : PNode → ReplyOutcome) :
    List PNode → List Int × List Int
  | [] => ([], [])
  | node :: rest =>
    let acc := phase1_prepare selfId prep rest
    if node.id = selfId then (node.id :: acc.1, acc.2)
    else
      match prep node with
      | ReplyOutcome.resp (some ty) =>
        if ty = TRANSACTION_VOTE_YES then (node.id :: acc.1, acc.2)
        else (acc.1, node.id :: acc.2)
      | _ => (acc.1, node.id :: acc.2)

/-- Translation of the acknowledgement loop of
`TwoPhaseCommitCoordinator._phase2_commit`: self commits locally; a reply
whose type is `ACK` counts as committed; everything else (falsy reply,
other type, send error) counts as failed. Returns
`(committed_nodes, failed_nodes)`. -/
def phase2_commit (selfId : Int) (commitReply : PNode → ReplyOutcome) :
    List PNode → List Int × List Int
  | [] => ([], [])
  | node :: rest =>
    let acc := phase2_commit selfId commitReply rest
    if node.id = selfId then (node.id :: acc.1, acc.2)
    else
      match commitReply node with
      | ReplyOutcome.resp (some ty) =>
        if ty = ACK then (node.id :: acc.1, acc.2)
        else (acc.1, node.id :: acc.2)
      | _ => (acc.1, node.id :: acc.2)

/-- The dictionary `execute_2pc` returns. Fields that a branch does not
put in its dictionary are `none`. The error strings are abbreviated (the
source interpolates the offending node lists into them); no claim reads
the error text. -/
structure TwoPCResult where
  success : Bool
  phase : Option String
  transaction_id : String
  error : Option String
  participants : Option Nat
deriving Repr

/-- Translation of `TwoPhaseCommitCoordinator.execute_2pc`, together with
the trace of send attempts `(message_type, node_id)` the run makes. The
`query` argument only feeds the PREPARE message payload. -/
def execute_2pc (selfId : Int) (transaction_id : String) (_query : String)
    (parts : List PNode) (prep commitReply : PNode → ReplyOutcome) :
    TwoPCResult × List (String × Int) :=
  let votes := phase1_prepare selfId prep parts
  let prepSends := sends_to_remotes TRANSACTION_PREPARE selfId parts
  if votes.2.isEmpty then
    let outcome := phase2_commit selfId commitReply parts
    let commitSends := sends_to_remotes TRANSACTION_COMMIT selfId parts
    if outcome.2.isEmpty then
      ({ success := true, phase := none, transaction_id,
         error := none, participants := some parts.length },
        prepSends ++ commitSends)
    else
      ({ success := false, phase := some "commit", transaction_id,
         error := some "nodes failed to commit", participants := none },
        prepSends ++ commitSends)
  else
    ({ success := false, phase := some "prepare", transaction_id,
       error := some "nodes voted NO or failed to respond",
       participants := none },
      prepSends ++ sends_to_remotes TRANSACTION_ABORT selfId parts)

/-! ## Transaction registry (`src/transaction/transaction_manager.py`)

Only the fields the claims touch are modelled: the per-transaction state,
and the lock manager the registry releases locks through. The
`Transaction` fields `queries`, `locks` and `connection` are not read by
any claimed behaviour. -/

/-- Translation of `transaction_manager.TransactionState`. -/
inductive TransactionState where
  | ACTIVE
  | PREPARING
  | PREPARED
  | COMMITTING
  | COMMITTED
  | ABORTING
  | ABORTED
deriving DecidableEq, Repr

/-- The state of a `TransactionManager`: the registry of active
transactions and the lock manager it owns. -/
structure TMState where
  active_transactions : List (String × TransactionState)
  lock_manager : LMState
deriving Repr

/-- Translation of `TransactionManager.begin_transaction` with an explicit
id: creating an existing transaction is a no-op. -/
def begin_transaction (tm : TMState) (transaction_id : String) : TMState :=
  if (lookupA transaction_id tm.active_transactions).isSome then tm
  else
    { tm with
      active_transactions :=
        setA transaction_id TransactionState.ACTIVE tm.active_transactions }

/-- Translation of `TransactionManager.abort_transaction` (the state
update; the source also returns a boolean): unknown transactions are left
untouched, known ones are removed after their locks are released. -/
def abort_transaction (tm : TMState) (transaction_id : String) : TMState :=
  if (lookupA transaction_id tm.active_transactions).isSome then
    { active_transactions := eraseA transaction_id tm.active_transactions,
      lock_manager := release_all_locks tm.lock_manager transaction_id }
  else tm

/-- Translation of `TransactionManager.commit_transaction`: `none` models
the `ValueError` that `_get_transaction` raises when the transaction is
unknown; otherwise the transaction is removed after its locks are
released. -/
def commit_transaction (tm : TMState) (transaction_id : String) :
    Option TMState :=
  if (lookupA transaction_id tm.active_transactions).isSome then
    some
      { active_transactions := eraseA transaction_id tm.active_transactions,
        lock_manager := release_all_locks tm.lock_manager transaction_id }
  else none

/-! ## Two-phase commit, participant side (`TwoPhaseCommitParticipant`) -/

/-- The state of a `TwoPhaseCommitParticipant`: the prepared map
(transaction id to query) and the transaction manager it shares with the
node. -/
structure ParticipantState where
  prepared_transactions : List (String × String)
  tm : TMState
deriving Repr

/-- The initial participant state: empty prepared map, empty registry. -/
def ParticipantState.init : ParticipantState :=
  ⟨[], ⟨[], LMState.init⟩⟩

/-- The outcome of the `query_executor.prepare_query` call inside
`handle_prepare`: a YES verdict, a NO verdict, or a raised exception. -/
inductive PrepareOutcome where
  | ok
  | voteNo
  | raisesExc
deriving DecidableEq, Repr

/-- Translation of `TwoPhaseCommitParticipant.handle_prepare`: begin the
transaction, try to prepare the query; on success record it in the
prepared map and vote YES, otherwise abort the transaction and vote NO.
Returns the vote message type and the new state. -/
def handle_prepare (ps : ParticipantState) (transaction_id query : String)
    (outcome : PrepareOutcome) : String × ParticipantState :=
  let tm1 := begin_transaction ps.tm transaction_id
  match outcome with
  | PrepareOutcome.ok =>
    (TRANSACTION_VOTE_YES,
      { prepared_transactions := setA transaction_id query
          ps.prepared_transactions,
        tm := tm1 })
  | _ =>
    (TRANSACTION_VOTE_NO,
      { prepared_transactions := ps.prepared_transactions,
        tm := abort_transaction tm1 transaction_id })

/-- Translation of `TwoPhaseCommitParticipant.handle_commit`.
`execRaises` is whether the `query_executor.commit_prepared_query` call
raises. Returns the reply message type, the new state, and whether
`commit_prepared_query` was invoked. An unknown transaction raises
`ValueError`, which the handler catches and turns into an `ERROR` reply
without touching any state. -/
def handle_commit (ps : ParticipantState) (transaction_id : String)
    (execRaises : Bool) : String × ParticipantState × Bool :=
  match lookupA transaction_id ps.prepared_transactions with
  | none => (ERROR, ps, false)
  | some _query =>
    if execRaises then (ERROR, ps, true)
    else
      match commit_transaction ps.tm transaction_id with
      | none => (ERROR, ps, true)
      | some tm' =>
        (ACK,
          ({ prepared_transactions :=
              eraseA transaction_id ps.prepared_transactions,
             tm := tm' }, true))

/-- Translation of `TwoPhaseCommitParticipant.handle_abort`. `abortRaises`
is whether the `query_executor.abort_prepared_query` call raises (in which
case the broad `except` swallows it before anything else runs). -/
def handle_abort (ps : ParticipantState) (transaction_id : String)
    (abortRaises : Bool) : ParticipantState :=
  match lookupA transaction_id ps.prepared_transactions with
  | some _query =>
    if abortRaises then ps
    else
      { prepared_transactions :=
          eraseA transaction_id ps.prepared_transactions,
        tm := abort_transaction ps.tm transaction_id }
  | none => { ps with tm := abort_transaction ps.tm transaction_id }

/-- The participant states reachable from the initial state by any
sequence of prepare, commit and abort handler invocations. -/
inductive PReachable : ParticipantState → Prop where
  | init : PReachable ParticipantState.init
  | prep {ps} (t q : String) (o : PrepareOutcome) :
      PReachable ps → PReachable (handle_prepare ps t q o).2
  | commit {ps} (t : String) (er : Bool) :
      PReachable ps → PReachable (handle_commit ps t er).2.1
  | abort {ps} (t : String) (ar : Bool) :
      PReachable ps → PReachable (handle_abort ps t ar)

/-! ## JSON values

Messages are Python dictionaries serialized with
`json.dumps(message, cls=DateTimeEncoder)` and parsed with `json.loads`
(`MessageProtocol.encode_message` / `decode_message`,
`src/communication/protocol.py`). The values occurring in messages are
null, booleans, integers, floats, strings, datetimes, lists and
string-keyed dictionaries. A Python float is carried by its shortest
decimal representation — the text `float.__repr__` produces and
`json.dumps` writes on the wire, and the text `json.loads` keys the
reconstructed float on — so float values are modelled at the granularity
the codec observes (the non-finite values, which `json.dumps` writes as
the bare tokens `NaN`/`Infinity`, have no such decimal form and are
outside the model). A datetime is serialized by `DateTimeEncoder.default`
as its `isoformat()` string, so it does not survive a round trip:
`json.loads` returns the string. Dictionaries keep insertion order, as
Python dictionaries do, so an object is a list of key-value pairs. -/

/-- Decimal digit test (the character code is between 48 and 57). -/
def isDigitC (c : Char) : Bool := 48 ≤ c.toNat && c.toNat ≤ 57

/-- The numeric value of a decimal digit character. -/
def digitVal (c : Char) : Nat := c.toNat - 48

/-- All characters of the list are decimal digits. -/
def allDigits (l : List Char) : Bool := l.all isDigitC

/-- The decimal form of a finite Python float, the text
`float.__repr__` produces and `json.dumps` emits: optional minus sign,
integer-part digits, optional fraction digits, optional signed exponent
digits (`repr` always signs the exponent it emits). -/
structure FloatLit where
  neg : Bool
  ip : List Char
  fp : Option (List Char)
  ex : Option (Bool × List Char)
deriving DecidableEq, Repr

/-- The float literals matched by the scanner regex of the Python `json`
package, `(-?(?:0|[1-9]\d*))(\.\d+)?([eE][-+]?\d+)?` with a fraction or
an exponent present: digits in every part, no leading zero in the
integer part, and at least a fraction or an exponent — a literal with
neither is an integer literal, parsed as an `int`. -/
def wfFloatLit (f : FloatLit) : Bool :=
  !f.ip.isEmpty && allDigits f.ip &&
  (f.ip == ['0'] || !(f.ip.head? == some '0')) &&
  (match f.fp with
   | none => true
   | some ds => !ds.isEmpty && allDigits ds) &&
  (match f.ex with
   | none => true
   | some (_, ds) => !ds.isEmpty && allDigits ds) &&
  !(f.fp.isNone && f.ex.isNone)

/-- A `datetime.datetime` value, as SELECT results place in message data
(the reason `DateTimeEncoder` exists). -/
structure PyDateTime where
  year : Nat
  month : Nat
  day : Nat
  hour : Nat
  minute : Nat
  second : Nat
  microsecond : Nat
deriving DecidableEq, Repr

mutual
/-- A JSON value, as produced and consumed by the message codec. -/
inductive Json where
  | null : Json
  | bool (b : Bool) : Json
  | num (n : Int) : Json
  | fnum (f : {x : FloatLit // wfFloatLit x = true}) : Json
  | str (s : List Char) : Json
  | dt (d : PyDateTime) : Json
  | arr (xs : JsonList) : Json
  | obj (kvs : JsonObj) : Json

/-- A JSON array, as a list of values. -/
inductive JsonList where
  | nil : JsonList
  | cons (hd : Json) (tl : JsonList) : JsonList

/-- A JSON object, as an insertion-ordered list of key-value pairs. -/
inductive JsonObj where
  | nil : JsonObj
  | cons (key : List Char) (val : Json) (tl : JsonObj) : JsonObj
end

/-! ### Serialization (`json.dumps`)

The model reproduces `json.dumps` with its default separators `", "` and
`": "` and its escape table: `\"`, `\\`, `\b`, `\t`, `\n`, `\f`, `\r`,
and `\u00XX` for the remaining control characters. Characters outside
ASCII are emitted literally (the behaviour of `ensure_ascii=False`; the
default `ensure_ascii=True` additionally transliterates non-ASCII
characters to `\uXXXX` sequences, a representation choice on the wire
that no claim observes). The byte level is modelled at character
granularity: UTF-8 `encode` on the sender and `decode` on the receiver
are mutually inverse, and no claim observes individual bytes. -/

/-- The decimal digit character for `d < 10`. -/
def digitChar (d : Nat) : Char := Char.ofNat (48 + d)

/-- The decimal digits of a natural number, most significant first,
as Python `repr` renders it. -/
def natToDigits (n : Nat) : List Char :=
  if h : n < 10 then [digitChar n]
  else natToDigits (n / 10) ++ [digitChar (n % 10)]
termination_by n
decreasing_by exact Nat.div_lt_self (by omega) (by omega)

/-- The decimal rendering of an integer. -/
def intToChars (i : Int) : List Char :=
  if i < 0 then '-' :: natToDigits i.natAbs else natToDigits i.toNat

/-- Zero-padded decimal rendering, as `isoformat()` pads its fields. -/
def padZeros (w : Nat) (n : Nat) : List Char :=
  List.replicate (w - (natToDigits n).length) '0' ++ natToDigits n

/-- Translation of `datetime.isoformat()`: `YYYY-MM-DDTHH:MM:SS`, with
`.ffffff` appended when the microsecond field is nonzero. -/
def isoformat (d : PyDateTime) : List Char :=
  padZeros 4 d.year ++ ['-'] ++ padZeros 2 d.month ++ ['-'] ++
    padZeros 2 d.day ++ ['T'] ++ padZeros 2 d.hour ++ [':'] ++
    padZeros 2 d.minute ++ [':'] ++ padZeros 2 d.second ++
    (if d.microsecond = 0 then [] else '.' :: padZeros 6 d.microsecond)

/-- The `.digits` fraction text of a float literal. -/
def fracChars : Option (List Char) → List Char
  | none => []
  | some ds => '.' :: ds

/-- The `e±digits` exponent text of a float literal. -/
def expChars : Option (Bool × List Char) → List Char
  | none => []
  | some (b, ds) => 'e' :: (if b then '-' else '+') :: ds

/-- The decimal rendering of a float: the text `float.__repr__` emits
and `json.dumps` writes. -/
def floatToChars (f : FloatLit) : List Char :=
  (if f.neg then ['-'] else []) ++ f.ip ++ fracChars f.fp ++ expChars f.ex

/-- The lowercase hexadecimal digit character for `d < 16`. -/
def hexDigitChar (d : Nat) : Char :=
  if d < 10 then Char.ofNat (48 + d) else Char.ofNat (87 + d)

/-- The escape table of `json.dumps` for one character inside a string
literal. -/
def escapeChar (c : Char) : List Char :=
  if c = '"' then ['\\', '"']
  else if c = '\\' then ['\\', '\\']
  else if c = '\x08' then ['\\', 'b']
  else if c = '\t' then ['\\', 't']
  else if c = '\n' then ['\\', 'n']
  else if c = '\x0c' then ['\\', 'f']
  else if c = '\r' then ['\\', 'r']
  else if c.toNat < 32 then
    ['\\', 'u', '0', '0', hexDigitChar (c.toNat / 16),
      hexDigitChar (c.toNat % 16)]
  else [c]

/-- Escape a whole string body. -/
def escapeStr : List Char → List Char
  | [] => []
  | c :: rest => escapeChar c ++ escapeStr rest

mutual
/-- Translation of `json.dumps` (applied to message dictionaries by
`MessageProtocol.encode_message`). -/
def dumpsVal : Json → List Char
  | Json.null => ['n', 'u', 'l', 'l']
  | Json.bool true => ['t', 'r', 'u', 'e']
  | Json.bool false => ['f', 'a', 'l', 's', 'e']
  | Json.num i => intToChars i
  | Json.fnum f => floatToChars f.val
  | Json.str s => '"' :: (escapeStr s ++ ['"'])
  | Json.dt d => '"' :: (escapeStr (isoformat d) ++ ['"'])
  | Json.arr JsonList.nil => ['[', ']']
  | Json.arr (JsonList.cons h t) =>
    '[' :: (dumpsVal h ++ dumpsListRest t ++ [']'])
  | Json.obj JsonObj.nil => ['\x7b', '\x7d']
  | Json.obj (JsonObj.cons k v t) =>
    '\x7b' :: (dumpsField k v ++ dumpsObjRest t ++ ['\x7d'])

/-- One `"key": value` item of an object. -/
def dumpsField (k : List Char) (v : Json) : List Char :=
  '"' :: (escapeStr k ++ ['"', ':', ' '] ++ dumpsVal v)

/-- The `, item` continuation of a non-empty array. -/
def dumpsListRest : JsonList → List Char
  | JsonList.nil => []
  | JsonList.cons h t => ',' :: ' ' :: (dumpsVal h ++ dumpsListRest t)

/-- The `, "key": value` continuation of a non-empty object. -/
def dumpsObjRest : JsonObj → List Char
  | JsonObj.nil => []
  | JsonObj.cons k v t => ',' :: ' ' :: (dumpsField k v ++ dumpsObjRest t)
end

/-! ### Parsing (`json.loads`)

A recursive-descent parser over the character list, fuelled by a natural
number for termination; `loads` supplies fuel larger than any value the
input can contain. The model is slightly lax where `json.loads` rejects
(leading zeros in integer literals, invalid `\u` sequences, lone
surrogates): the round-trip property only exercises it on `json.dumps`
output, where the two agree. Float literals carry the scanner regex
rules in `wfFloatLit`, so the float domain contains exactly the literals
both sides accept. -/

/-- JSON whitespace. -/
def isWsChar (c : Char) : Bool :=
  c == ' ' || c == '\t' || c == '\n' || c == '\r'

/-- Drop leading JSON whitespace. -/
def skipWs : List Char → List Char
  | [] => []
  | c :: rest => if isWsChar c then skipWs rest else c :: rest

/-- Consume a maximal run of decimal digits, keeping their text. -/
def takeDigits : List Char → List Char × List Char
  | [] => ([], [])
  | c :: rest =>
    if isDigitC c then
      let p := takeDigits rest
      (c :: p.1, p.2)
    else ([], c :: rest)

/-- The value of a run of decimal digits. -/
def digitsToNat (ds : List Char) : Nat :=
  ds.foldl (fun a c => a * 10 + digitVal c) 0

/-- Consume the optional `.digits` fraction of a number literal. A dot
not followed by a digit fails the parse, as it does in Python where the
scanner regex leaves the dot behind and the surrounding parse rejects
it. -/
def parseFrac : List Char → Option (Option (List Char) × List Char)
  | [] => some (none, [])
  | c :: r =>
    if c = '.' then
      match takeDigits r with
      | ([], _) => none
      | (ds, r2) => some (some ds, r2)
    else some (none, c :: r)

/-- Consume the exponent digits after `e` and an optional sign. -/
def expDigits (b : Bool) (s : List Char) :
    Option (Option (Bool × List Char) × List Char) :=
  match takeDigits s with
  | ([], _) => none
  | (ds, r) => some (some (b, ds), r)

/-- Consume the optional `e±digits` exponent of a number literal. -/
def parseExp : List Char → Option (Option (Bool × List Char) × List Char)
  | [] => some (none, [])
  | c :: r =>
    if c = 'e' ∨ c = 'E' then
      match r with
      | [] => none
      | c2 :: r2 =>
        if c2 = '+' then expDigits false r2
        else if c2 = '-' then expDigits true r2
        else expDigits false (c2 :: r2)
    else some (none, c :: r)

/-- Parse a number literal after its optional minus sign: integer-part
digits, an optional fraction and an optional exponent. With a fraction
or an exponent present the literal is a float, as in the Python scanner
(the well-formedness test reinstates the `0|[1-9]\d*` integer-part rule
of the scanner regex, which the relaxed digit run above does not
enforce); with neither it is an integer. -/
def parseNumTail (neg : Bool) (s : List Char) : Option (Json × List Char) :=
  match takeDigits s with
  | (ip, r1) =>
    if ip.isEmpty then none
    else
      match parseFrac r1 with
      | none => none
      | some (fp, r2) =>
        match parseExp r2 with
        | none => none
        | some (ex, r3) =>
          if fp.isNone && ex.isNone then
            some (Json.num (if neg then -(digitsToNat ip : Int)
              else (digitsToNat ip : Int)), r3)
          else if h : wfFloatLit ⟨neg, ip, fp, ex⟩ = true then
            some (Json.fnum ⟨⟨neg, ip, fp, ex⟩, h⟩, r3)
          else none

/-- Parse a number literal: an optional minus sign, then digits with an
optional fraction and an optional exponent. -/
def parseNumber (s : List Char) : Option (Json × List Char) :=
  match s with
  | [] => none
  | c :: rest =>
    if c = '-' then parseNumTail true rest
    else parseNumTail false (c :: rest)

/-- The numeric value of a hexadecimal digit character (either case). -/
def hexVal (c : Char) : Nat :=
  if c.toNat ≥ 97 then c.toNat - 87
  else if c.toNat ≥ 65 then c.toNat - 55
  else c.toNat - 48

/-- Prepend a character to the string under construction. -/
def consRes (c : Char) :
    Option (List Char × List Char) → Option (List Char × List Char)
  | some (cs, rest) => some (c :: cs, rest)
  | none => none

/-- Parse a string body after its opening quote, un-escaping up to the
closing quote. -/
def parseStringBody : List Char → Option (List Char × List Char)
  | [] => none
  | c :: rest =>
    if c = '"' then some ([], rest)
    else if c = '\\' then
      match rest with
      | [] => none
      | e :: rest' =>
        if e = '"' then consRes '"' (parseStringBody rest')
        else if e = '\\' then consRes '\\' (parseStringBody rest')
        else if e = '/' then consRes '/' (parseStringBody rest')
        else if e = 'b' then consRes '\x08' (parseStringBody rest')
        else if e = 'f' then consRes '\x0c' (parseStringBody rest')
        else if e = 'n' then consRes '\n' (parseStringBody rest')
        else if e = 'r' then consRes '\r' (parseStringBody rest')
        else if e = 't' then consRes '\t' (parseStringBody rest')
        else if e = 'u' then
          match rest' with
          | h1 :: h2 :: h3 :: h4 :: rest'' =>
            consRes
              (Char.ofNat
                (hexVal h1 * 4096 + hexVal h2 * 256 + hexVal h3 * 16 +
                  hexVal h4))
              (parseStringBody rest'')
          | _ => none
        else none
    else consRes c (parseStringBody rest)
termination_by l => l.length
decreasing_by all_goals simp_arith

mutual
/-- Parse one JSON value: a one-character lookahead dispatches on quotes,
braces and brackets, then the four-to-five-character keywords, then
numbers — the dispatch order of the scanner in the Python `json`
package. -/
def parseVal : Nat → List Char → Option (Json × List Char)
  | 0, _ => none
  | Nat.succ fuel, s =>
    match skipWs s with
    | [] => none
    | c :: rest =>
      if c = '"' then
        match parseStringBody rest with
        | some (cs, rest') => some (Json.str cs, rest')
        | none => none
      else if c = '\x7b' then
        match skipWs rest with
        | [] => none
        | c2 :: rest2 =>
          if c2 = '\x7d' then some (Json.obj JsonObj.nil, rest2)
          else
            match parseObjFields fuel (c2 :: rest2) with
            | some (kvs, rest') => some (Json.obj kvs, rest')
            | none => none
      else if c = '[' then
        match skipWs rest with
        | [] => none
        | c2 :: rest2 =>
          if c2 = ']' then some (Json.arr JsonList.nil, rest2)
          else
            match parseListItems fuel (c2 :: rest2) with
            | some (xs, rest') => some (Json.arr xs, rest')
            | none => none
      else if startsWithL (c :: rest) "null".toList then
        some (Json.null, rest.drop 3)
      else if startsWithL (c :: rest) "true".toList then
        some (Json.bool true, rest.drop 3)
      else if startsWithL (c :: rest) "false".toList then
        some (Json.bool false, rest.drop 4)
      else
        match parseNumber (c :: rest) with
        | some (v, rest') => some (v, rest')
        | none => none

/-- Parse the comma-separated items of a non-empty array, up to and
including the closing bracket. -/
def parseListItems : Nat → List Char → Option (JsonList × List Char)
  | 0, _ => none
  | Nat.succ fuel, s =>
    match parseVal fuel s with
    | none => none
    | some (v, rest) =>
      match skipWs rest with
      | [] => none
      | c :: rest' =>
        if c = ',' then
          match parseListItems fuel rest' with
          | some (xs, rest'') => some (JsonList.cons v xs, rest'')
          | none => none
        else if c = ']' then some (JsonList.cons v JsonList.nil, rest')
        else none

/-- Parse the comma-separated fields of a non-empty object, up to and
including the closing brace. -/
def parseObjFields : Nat → List Char → Option (JsonObj × List Char)
  | 0, _ => none
  | Nat.succ fuel, s =>
    match skipWs s with
    | [] => none
    | c :: rest =>
      if c = '"' then
        match parseStringBody rest with
        | none => none
        | some (k, r1) =>
          match skipWs r1 with
          | [] => none
          | c2 :: r2 =>
            if c2 = ':' then
              match parseVal fuel r2 with
              | none => none
              | some (v, r3) =>
                match skipWs r3 with
                | [] => none
                | c3 :: r4 =>
                  if c3 = ',' then
                    match parseObjFields fuel r4 with
                    | some (kvs, r5) => some (JsonObj.cons k v kvs, r5)
                    | none => none
                  else if c3 = '\x7d' then
                    some (JsonObj.cons k v JsonObj.nil, r4)
                  else none
            else none
      else none
end

mutual
/-- Structural size of a JSON value, used to bound the parser fuel. -/
def sizeV : Json → Nat
  | Json.null => 1
  | Json.bool _ => 1
  | Json.num _ => 1
  | Json.fnum _ => 1
  | Json.str _ => 1
  | Json.dt _ => 1
  | Json.arr xs => sizeL xs + 1
  | Json.obj kvs => sizeO kvs + 1

/-- Structural size of a JSON array. -/
def sizeL : JsonList → Nat
  | JsonList.nil => 0
  | JsonList.cons h t => sizeV h + sizeL t + 1

/-- Structural size of a JSON object. -/
def sizeO : JsonObj → Nat
  | JsonObj.nil => 0
  | JsonObj.cons _ v t => sizeV v + sizeO t + 1
end

/-- Translation of `json.loads`: parse one value and require that only
whitespace follows. The fuel bound exceeds the structural depth of any
value the input can denote. -/
def loads (s : List Char) : Option Json :=
  match parseVal (s.length + 1) s with
  | some (v, rest) => if (skipWs rest).isEmpty then some v else none
  | none => none

/-- Translation of `MessageProtocol.encode_message`. -/
def encode_message (m : Json) : List Char := dumpsVal m

/-- Translation of `MessageProtocol.decode_message` (the `ValueError` on
malformed input is `none`). -/
def decode_message (s : List Char) : Option Json := loads s

mutual
/-- The observable effect of an encode–decode round trip on a value:
`DateTimeEncoder` writes a datetime as its `isoformat()` string and
`json.loads` reads that back as a plain string, while every other value
is reproduced. -/
def stripDtV : Json → Json
  | Json.dt d => Json.str (isoformat d)
  | Json.arr xs => Json.arr (stripDtL xs)
  | Json.obj kvs => Json.obj (stripDtO kvs)
  | v => v

/-- `stripDtV` on every element of an array. -/
def stripDtL : JsonList → JsonList
  | JsonList.nil => JsonList.nil
  | JsonList.cons h t => JsonList.cons (stripDtV h) (stripDtL t)

/-- `stripDtV` on every value of an object. -/
def stripDtO : JsonObj → JsonObj
  | JsonObj.nil => JsonObj.nil
  | JsonObj.cons k v t => JsonObj.cons k (stripDtV v) (stripDtO t)
end

mutual
/-- No datetime occurs in the value. -/
def dtFreeV : Json → Bool
  | Json.dt _ => false
  | Json.arr xs => dtFreeL xs
  | Json.obj kvs => dtFreeO kvs
  | _ => true

/-- No datetime occurs in the array. -/
def dtFreeL : JsonList → Bool
  | JsonList.nil => true
  | JsonList.cons h t => dtFreeV h && dtFreeL t

/-- No datetime occurs among the object values. -/
def dtFreeO : JsonObj → Bool
  | JsonObj.nil => true
  | JsonObj.cons _ v t => dtFreeV v && dtFreeO t
end

/-! ### Checksums (`src/security/checksum.py`)

`calculate_checksum` serializes with `json.dumps(data, sort_keys=True)`
and hashes the UTF-8 bytes with SHA-256, returning the hex digest.
`sortKeysV` reproduces the key-sorted serialization; `sha256_hex` is a
deterministic stand-in for the SHA-256 hex digest (every verified
property uses only that the digest is a deterministic function of
its input). -/

/-- Python string order (code-point lexicographic), as `sort_keys=True`
uses on the keys. -/
def keyLe : List Char → List Char → Bool
  | [], _ => true
  | _ :: _, [] => false
  | a :: as, b :: bs =>
    if a.toNat < b.toNat then true
    else if b.toNat < a.toNat then false
    else keyLe as bs

/-- Ordered insertion of a field into a key-sorted object. -/
def insertFieldSorted (k : List Char) (v : Json) : JsonObj → JsonObj
  | JsonObj.nil => JsonObj.cons k v JsonObj.nil
  | JsonObj.cons k' v' t =>
    if keyLe k k' then JsonObj.cons k v (JsonObj.cons k' v' t)
    else JsonObj.cons k' v' (insertFieldSorted k v t)

mutual
/-- Recursively sort all object keys, as `json.dumps(_, sort_keys=True)`
serializes them. -/
def sortKeysV : Json → Json
  | Json.obj kvs => Json.obj (sortKeysO kvs)
  | Json.arr xs => Json.arr (sortKeysL xs)
  | v => v

/-- Key-sort every element of an array. -/
def sortKeysL : JsonList → JsonList
  | JsonList.nil => JsonList.nil
  | JsonList.cons h t => JsonList.cons (sortKeysV h) (sortKeysL t)

/-- Key-sort an object and its values. -/
def sortKeysO : JsonObj → JsonObj
  | JsonObj.nil => JsonObj.nil
  | JsonObj.cons k v t => insertFieldSorted k (sortKeysV v) (sortKeysO t)
end

/-- The lowercase hexadecimal rendering of a natural number. -/
def natToHex (n : Nat) : List Char :=
  if h : n < 16 then [hexDigitChar n]
  else natToHex (n / 16) ++ [hexDigitChar (n % 16)]
termination_by n
decreasing_by exact Nat.div_lt_self (by omega) (by omega)

/-- Deterministic stand-in for the SHA-256 hex digest of a string. -/
def sha256_hex (s : List Char) : List Char :=
  natToHex (s.foldl (fun a c => (a * 131 + c.toNat + 1) % (2 ^ 256))
    (2 ^ 255))

/-- Translation of `checksum.calculate_checksum` on a dictionary:
serialize key-sorted, hash. -/
def calculate_checksum (m : Json) : List Char :=
  sha256_hex (dumpsVal (sortKeysV m))

/-- Dictionary lookup on a JSON object. -/
def lookupO (k : List Char) : JsonObj → Option Json
  | JsonObj.nil => none
  | JsonObj.cons k' v t => if k' = k then some v else lookupO k t

/-- Dictionary deletion on a JSON object. -/
def removeKeyO (k : List Char) : JsonObj → JsonObj
  | JsonObj.nil => JsonObj.nil
  | JsonObj.cons k' v t =>
    if k' = k then removeKeyO k t else JsonObj.cons k' v (removeKeyO k t)

/-- Dictionary assignment on a JSON object: replace in place, or append a
fresh key at the end. -/
def setO (k : List Char) (v : Json) : JsonObj → JsonObj
  | JsonObj.nil => JsonObj.cons k v JsonObj.nil
  | JsonObj.cons k' v' t =>
    if k' = k then JsonObj.cons k v t else JsonObj.cons k' v' (setO k v t)

/-- The `checksum` field name. -/
def checksumKey : List Char := "checksum".toList

/-- Translation of `checksum.add_checksum`: compute the checksum of the
message without its `checksum` field, then store it in the message. -/
def add_checksum (m : JsonObj) : JsonObj :=
  let without := removeKeyO checksumKey m
  setO checksumKey (Json.str (calculate_checksum (Json.obj without))) m

/-- Translation of `checksum.verify_message_checksum`: require a
`checksum` field, then compare it against the checksum of the rest of the
message. A stored checksum that is not a string never equals the
calculated string, as in Python. -/
def verify_message_checksum (m : JsonObj) : Bool :=
  match lookupO checksumKey m with
  | none => false
  | some expected =>
    match expected with
    | Json.str h =>
      calculate_checksum (Json.obj (removeKeyO checksumKey m)) == h
    | _ => false

/-- Translation of `MessageProtocol.create_message`. `message_id` and
`timestamp` stand for the values of `generate_message_id()` and
`get_timestamp()`, which depend on the wall clock; the claims hold for
every value they may take. The caller passing `data=None` is the empty
object. -/
def create_message (message_type : List Char) (sender_id : Int)
    (data : JsonObj) (receiver_id : Option Int)
    (message_id timestamp : List Char) : JsonObj :=
  let base :=
    JsonObj.cons "message_id".toList (Json.str message_id)
      (JsonObj.cons "type".toList (Json.str message_type)
        (JsonObj.cons "sender_id".toList (Json.num sender_id)
          (JsonObj.cons "timestamp".toList (Json.str timestamp)
            (JsonObj.cons "data".toList (Json.obj data) JsonObj.nil))))
  let withRecv :=
    match receiver_id with
    | none => base
    | some rid => setO "receiver_id".toList (Json.num rid) base
  add_checksum withRecv

/-- Whether the `data` payload of a message is datetime-free: the
observation distinguishing a message from its decoded image. -/
def payloadDtFree : Json → Bool
  | Json.obj kvs =>
    match lookupO "data".toList kvs with
    | some d => dtFreeV d
    | none => true
  | _ => true

/-- A datetime row value, as a `created_at` column of a query result
provides. -/
def cexDateTime : PyDateTime := ⟨2024, 6, 1, 12, 30, 45, 0⟩

/-- A query-result payload carrying the datetime. -/
def cexData : JsonObj :=
  JsonObj.cons "created_at".toList (Json.dt cexDateTime) JsonObj.nil

/-- A concrete message whose data carries a datetime: a response whose
result rows include a datetime column. -/
def cexMessage : JsonObj :=
  create_message "QUERY_RESPONSE".toList 1 cexData none
    "m1".toList "t1".toList

/-- A float literal, in the decimal form `repr(0.25)` produces — a
`response_time` value as `Coordinator._handle_read_query` stores one. -/
def wFloat : FloatLit := ⟨false, ['0'], some ['2', '5'], none⟩

/-- A message payload carrying the float. -/
def wData : JsonObj :=
  JsonObj.cons "response_time".toList (Json.fnum ⟨wFloat, by decide⟩)
    JsonObj.nil

/-! ## Invariant predicates -/

/-- Whenever a resource entry contains an Exclusive lock, every lock in
that entry belongs to the same transaction. This is the inductive
invariant behind the mutual-exclusion properties of the lock table. -/
def excl_all_same (st : LMState) : Prop :=
  ∀ r ls, lookupA r st.locks = some ls →
    ∀ a ∈ ls, a.lock_type = LockType.EXCLUSIVE →
      ∀ b ∈ ls, b.transaction_id = a.transaction_id

/-- Consistency of the two lock-table indexes: a resource appears in a
transaction's resource set exactly when that transaction has a lock in
the resource's entry, no resource entry is an empty list, and no
transaction entry is an empty set. -/
def lm_consistent (st : LMState) : Prop :=
  (∀ t r, (∃ rs, lookupA t st.transaction_locks = some rs ∧ r ∈ rs) ↔
      (∃ ls, lookupA r st.locks = some ls ∧
        ∃ l ∈ ls, l.transaction_id = t)) ∧
  (∀ r, lookupA r st.locks ≠ some []) ∧
  (∀ t, lookupA t st.transaction_locks ≠ some [])

/-- The index-consistency invariant phrased through `getD`: a resource is
in a transaction's resource set exactly when the transaction owns a lock
in the resource's entry, reading a missing entry as empty. Equivalent to
the dictionary-level statement whenever no entry is empty. -/
def lm_iff_getD (st : LMState) : Prop :=
  ∀ t' r', r' ∈ (lookupA t' st.transaction_locks).getD [] ↔
    ∃ l ∈ (lookupA r' st.locks).getD [], l.transaction_id = t'

/-- Every transaction known to the registry of a participant is also in
its prepared map. This is the inductive invariant that makes
`handle_abort` on an unprepared transaction a no-op. -/
def registry_in_prepared (ps : ParticipantState) : Prop :=
  ∀ t, (lookupA t ps.tm.active_transactions).isSome →
    (lookupA t ps.prepared_transactions).isSome

end DDB

namespace DDB

/-! # Theorems

Helper lemmas come first; the claim theorems are marked with the claim
identifiers C1 through C10. -/

/-! ## Association list lemmas -/

theorem eraseA_cons_self {β : Type} (k : String) (b : β)
    (rest : List (String × β)) :
    eraseA k ((k, b) :: rest) = eraseA k rest := by
  simp [eraseA, List.filter_cons]

theorem eraseA_cons_ne {β : Type} (k a : String) (b : β)
    (rest : List (String × β)) (h : a ≠ k) :
    eraseA k ((a, b) :: rest) = (a, b) :: eraseA k rest := by
  simp [eraseA, List.filter_cons, h]

theorem lookupA_setA_self {β : Type} (k : String) (v : β)
    (l : List (String × β)) : lookupA k (setA k v l) = some v := by
  induction l with
  | nil => simp [setA, lookupA]
  | cons p rest ih =>
    cases p with
    | mk a b =>
      by_cases ha : a = k
      · simp [setA, if_pos ha, lookupA]
      · simp only [setA, if_neg ha, lookupA]
        exact ih

theorem lookupA_setA_ne {β : Type} (k k' : String) (v : β)
    (l : List (String × β)) (h : k' ≠ k) :
    lookupA k' (setA k v l) = lookupA k' l := by
  induction l with
  | nil =>
    simp only [setA, lookupA]
    rw [if_neg (Ne.symm h)]
  | cons p rest ih =>
    cases p with
    | mk a b =>
      by_cases ha : a = k
      · subst ha
        simp only [setA, if_pos rfl, lookupA]
        rw [if_neg (Ne.symm h), if_neg (Ne.symm h)]
      · simp only [setA, if_neg ha, lookupA]
        by_cases hak' : a = k'
        · rw [if_pos hak', if_pos hak']
        · rw [if_neg hak', if_neg hak']
          exact ih

theorem lookupA_eraseA_self {β : Type} (k : String)
    (l : List (String × β)) : lookupA k (eraseA k l) = none := by
  induction l with
  | nil => simp [eraseA, lookupA]
  | cons p rest ih =>
    cases p with
    | mk a b =>
      by_cases ha : a = k
      · subst ha
        rw [eraseA_cons_self]
        exact ih
      · rw [eraseA_cons_ne k a b rest ha]
        simp only [lookupA]
        rw [if_neg ha]
        exact ih

theorem lookupA_eraseA_ne {β : Type} (k k' : String)
    (l : List (String × β)) (h : k' ≠ k) :
    lookupA k' (eraseA k l) = lookupA k' l := by
  induction l with
  | nil => simp [eraseA, lookupA]
  | cons p rest ih =>
    cases p with
    | mk a b =>
      by_cases ha : a = k
      · subst ha
        rw [eraseA_cons_self]
        simp only [lookupA]
        rw [if_neg (Ne.symm h)]
        exact ih
      · rw [eraseA_cons_ne k a b rest ha]
        simp only [lookupA]
        by_cases hak' : a = k'
        · rw [if_pos hak', if_pos hak']
        · rw [if_neg hak', if_neg hak']
          exact ih

/-! ## C3 — query routing -/

/-- Claim C3 counterexample: a QUERY message carrying a read query and no
`from_coordinator` flag is executed locally via the QueryExecutor, not
handled via `ExecuteQuery` as the claim requires. -/
theorem claim_C3_counterexample :
    handle_query_route ⟨"SELECT * FROM users", false⟩ =
      QueryRoute.viaLocalExecutor ∧
    ¬ handle_query_route ⟨"SELECT * FROM users", false⟩ =
      QueryRoute.viaExecuteQuery := by
  constructor
  · decide
  · decide

/-- Claim C3 (amended): a QUERY message is handled via `ExecuteQuery`
exactly when the `from_coordinator` flag is absent and the query is a
write query; all other QUERY messages, including reads arriving without
the flag, are executed locally via the QueryExecutor. -/
theorem claim_C3_amended (d : QueryMsgData) :
    handle_query_route d = QueryRoute.viaExecuteQuery ↔
      d.from_coordinator = false ∧ is_write_query d.query = true := by
  unfold handle_query_route
  cases hf : d.from_coordinator <;> cases hw : is_write_query d.query <;>
    simp [hf, hw]

/-! ## C6 — the lock grant predicate -/

/-- Claim C6: `_can_acquire` grants exactly what the specification says —
Shared iff no Exclusive lock is held by another transaction or the
requester already holds the resource; Exclusive iff no other transaction
holds any lock on the resource. -/
theorem can_acquire_on_iff (ls : List LockRec) (tid : String)
    (lt : LockType) :
    can_acquire_on ls tid lt = true ↔ spec_grantable_on ls tid lt := by
  rcases hd : ls with _ | ⟨l0, ls'⟩
  · cases lt <;> simp [can_acquire_on, spec_grantable_on]
  · have hne : l0 :: ls' ≠ [] := by simp
    by_cases hhas :
        ((l0 :: ls').any fun l => l.transaction_id == tid) = true
    · have hw : ∃ w ∈ l0 :: ls', w.transaction_id = tid := by
        simpa [List.any_eq_true, beq_iff_eq] using hhas
      obtain ⟨w, hwm, hwt⟩ := hw
      cases lt with
      | SHARED =>
        simp only [can_acquire_on, spec_grantable_on, List.isEmpty_cons,
          if_neg (by decide : ¬ false = true), hhas, if_true, true_iff]
        exact Or.inr ⟨w, hwm, hwt⟩
      | EXCLUSIVE =>
        simp only [can_acquire_on, spec_grantable_on, List.isEmpty_cons,
          if_neg (by decide : ¬ false = true), hhas, if_true,
          List.all_eq_true, beq_iff_eq]
        constructor
        · rintro hall ⟨l, hl, hlt⟩
          exact hlt (hall l hl)
        · intro hno l hl
          by_contra hcne
          exact hno ⟨l, hl, hcne⟩
    · have hother : ∀ l ∈ l0 :: ls', l.transaction_id ≠ tid := by
        intro l hl he
        exact hhas (by
          simp only [List.any_eq_true, beq_iff_eq]
          exact ⟨l, hl, he⟩)
      have hhasf :
          ((l0 :: ls').any fun l => l.transaction_id == tid) = false := by
        simpa using hhas
      cases lt with
      | SHARED =>
        simp only [can_acquire_on, spec_grantable_on, List.isEmpty_cons,
          if_neg (by decide : ¬ false = true), hhasf,
          if_neg (by decide : ¬ false = true), List.all_eq_true,
          beq_iff_eq]
        constructor
        · intro hall
          left
          rintro ⟨l, hl, hx, -⟩
          rw [hall l hl] at hx
          exact absurd hx (by decide)
        · intro hdj l hl
          rcases hdj with hno | ⟨l', hl', he⟩
          · cases hx : l.lock_type with
            | SHARED => rfl
            | EXCLUSIVE => exact absurd ⟨l, hl, hx, hother l hl⟩ hno
          · exact absurd he (hother l' hl')
      | EXCLUSIVE =>
        simp only [can_acquire_on, spec_grantable_on, List.isEmpty_cons,
          if_neg (by decide : ¬ false = true), hhasf,
          if_neg (by decide : ¬ false = true)]
        refine iff_of_false (by decide) ?_
        intro hno
        exact hno ⟨l0, List.mem_cons_self l0 ls', hother l0 (List.mem_cons_self l0 ls')⟩

/-- Claim C6: `_can_acquire` grants exactly what the specification says —
Shared iff no Exclusive lock is held by another transaction or the
requester already holds the resource; Exclusive iff no other transaction
holds any lock on the resource. -/
theorem claim_C6 (locks : List (String × List LockRec))
    (resource transaction_id : String) (lock_type : LockType) :
    can_acquire locks resource transaction_id lock_type = true ↔
      spec_grantable locks resource transaction_id lock_type :=
  can_acquire_on_iff ((lookupA resource locks).getD []) transaction_id
    lock_type

/-! ## C8 — acquire with timeout 0 -/

/-- Claim C8 (the code bug): with a transaction `t1` holding an Exclusive
lock on `accounts`, an `acquire_lock('accounts', 't2', EXCLUSIVE,
timeout=0)` request is not grantable, yet the call only returns `false`
after the full default 30 seconds (300 ticks of 0.1 s), because
`timeout = timeout or self.wait_timeout` replaces the falsy `0` by the
30-second default instead of expiring immediately. -/
theorem claim_C8_code_bug :
    can_acquire [("accounts", [⟨LockType.EXCLUSIVE, "t1"⟩])] "accounts"
        "t2" LockType.EXCLUSIVE = false ∧
    effective_timeout (some 0) = 300 ∧
    acquire_lock_elapsed
        ⟨[("accounts", [⟨LockType.EXCLUSIVE, "t1"⟩])], [("t1", ["accounts"])]⟩
        "accounts" "t2" LockType.EXCLUSIVE (some 0) = (false, 300) := by
  refine ⟨by decide, by decide, ?_⟩
  have hcan :
      can_acquire [("accounts", [⟨LockType.EXCLUSIVE, "t1"⟩])] "accounts"
        "t2" LockType.EXCLUSIVE = false := by decide
  have hpoll : ∀ n e, acquire_poll false n e = (false, e + n) := by
    intro n
    induction n with
    | zero =>
      intro e
      rw [acquire_poll]
      simp
    | succ m ih =>
      intro e
      rw [acquire_poll]
      simp only [Bool.false_eq_true, if_false]
      rw [ih (e + 1)]
      have : e + 1 + m = e + (m + 1) := by omega
      rw [this]
  unfold acquire_lock_elapsed
  rw [hcan, hpoll]
  simp [effective_timeout]

/-! ## C9 — round-robin selection -/

theorem round_robin_run_eq_rotate (available : List Int) (i : Nat)
    (hne : available ≠ []) :
    round_robin_run available i available.length =
      (available.insertionSort (· ≤ ·)).rotate i := by
  have hlen : (available.insertionSort (· ≤ ·)).length = available.length :=
    List.length_insertionSort _ _
  have hpos : 0 < available.length := List.length_pos.mpr hne
  apply List.ext_getElem
  · simp [round_robin_run, List.length_rotate, hlen]
  · intro j h1 h2
    simp only [round_robin_run, List.getElem_map, List.getElem_range,
      select_round_robin]
    have h3 : (i + j) % (available.insertionSort (· ≤ ·)).length <
        (available.insertionSort (· ≤ ·)).length := by
      rw [hlen]
      exact Nat.mod_lt _ hpos
    rw [List.getElem_rotate]
    rw [List.getD_eq_getElem _ _ h3]
    simp only [Nat.add_comm i j]

/-- Claim C9: round-robin selection returns `sorted(available)[i mod n]`
and increments the index by one, and `n` consecutive selections over an
unchanged duplicate-free set of `n` nodes return each node exactly
once. -/
theorem claim_C9 (available : List Int) (i : Nat) (hne : available ≠ [])
    (hnd : available.Nodup) :
    (∀ j : Nat, select_round_robin available (i + j) =
      ((available.insertionSort (· ≤ ·)).getD
        ((i + j) % available.length) 0, i + j + 1)) ∧
    ∀ x ∈ available,
      (round_robin_run available i available.length).count x = 1 := by
  have hlen : (available.insertionSort (· ≤ ·)).length = available.length :=
    List.length_insertionSort _ _
  constructor
  · intro j
    simp [select_round_robin, hlen]
  · intro x hx
    rw [round_robin_run_eq_rotate available i hne]
    have hperm : ((available.insertionSort (· ≤ ·)).rotate i).Perm
        available :=
      (List.rotate_perm _ _).trans (List.perm_insertionSort _ _)
    rw [hperm.count_eq]
    exact List.count_eq_one_of_mem hnd hx

/-! ## C5 — mutual exclusion of the lock table -/

theorem excl_all_same_acquire (st : LMState) (r t : String) (m : LockType)
    (h : excl_all_same st) : excl_all_same (acquire_lock st r t m).2 := by
  unfold acquire_lock
  by_cases hcan : can_acquire st.locks r t m = true
  · rw [if_pos hcan]
    have hcanOn :
        can_acquire_on ((lookupA r st.locks).getD []) t m = true := hcan
    intro r' ls' hlook a ha haX b hb
    simp only [acquire_update] at hlook
    by_cases hr : r' = r
    · subst hr
      rw [lookupA_setA_self] at hlook
      have hfe := Option.some.inj hlook
      subst hfe
      set cur := (lookupA r' st.locks).getD [] with hcur_def
      have hcur : ∀ x ∈ cur, x.lock_type = LockType.EXCLUSIVE →
          ∀ y ∈ cur, y.transaction_id = x.transaction_id := by
        rcases hl : lookupA r' st.locks with _ | ls
        · intro x hx
          rw [hcur_def, hl] at hx
          simp at hx
        · intro x hx hxX y hy
          rw [hcur_def, hl] at hx hy
          exact h r' ls hl x hx hxX y hy
      cases m with
      | SHARED =>
        have hac : a ∈ cur := by
          rcases List.mem_append.mp ha with hac | han
          · exact hac
          · simp at han
            rw [han] at haX
            simp at haX
        have hat : a.transaction_id = t := by
          have hspec := (can_acquire_on_iff cur t LockType.SHARED).mp hcanOn
          simp only [spec_grantable_on] at hspec
          rcases hspec with hno | ⟨w, hwm, hwt⟩
          · by_contra hne
            exact hno ⟨a, hac, haX, hne⟩
          · have hwa : w.transaction_id = a.transaction_id :=
              hcur a hac haX w hwm
            rw [← hwa, hwt]
        rcases List.mem_append.mp hb with hbc | hbn
        · exact hcur a hac haX b hbc
        · simp at hbn
          rw [hbn]
          exact hat.symm
      | EXCLUSIVE =>
        have hall : ∀ l ∈ cur, l.transaction_id = t := by
          have hspec :=
            (can_acquire_on_iff cur t LockType.EXCLUSIVE).mp hcanOn
          simp only [spec_grantable_on] at hspec
          intro l hl
          by_contra hne
          exact hspec ⟨l, hl, hne⟩
        have hat : a.transaction_id = t := by
          rcases List.mem_append.mp ha with hac | han
          · exact hall a hac
          · simp at han
            rw [han]
        rcases List.mem_append.mp hb with hbc | hbn
        · rw [hall b hbc, hat]
        · simp at hbn
          rw [hbn]
          exact hat.symm
    · rw [lookupA_setA_ne _ _ _ _ hr] at hlook
      exact h r' ls' hlook a ha haX b hb
  · rw [if_neg hcan]
    exact h

theorem excl_all_same_release (st : LMState) (r t : String)
    (h : excl_all_same st) : excl_all_same (release_lock st r t).2 := by
  unfold release_lock
  cases hl : lookupA r st.locks with
  | none => exact h
  | some ls =>
    intro r' ls' hlook a ha haX b hb
    simp only at hlook
    by_cases hf : (ls.filter fun l => !(l.transaction_id == t)).isEmpty
    · rw [if_pos hf] at hlook
      by_cases hr : r' = r
      · subst hr
        rw [lookupA_eraseA_self] at hlook
        exact absurd hlook (by simp)
      · rw [lookupA_eraseA_ne _ _ _ hr] at hlook
        exact h r' ls' hlook a ha haX b hb
    · rw [if_neg hf] at hlook
      by_cases hr : r' = r
      · subst hr
        rw [lookupA_setA_self] at hlook
        have hfe := Option.some.inj hlook
        subst hfe
        have hsub : ∀ x ∈ ls.filter fun l => !(l.transaction_id == t),
            x ∈ ls := fun x hx => (List.mem_filter.mp hx).1
        exact h r' ls hl a (hsub a ha) haX b (hsub b hb)
      · rw [lookupA_setA_ne _ _ _ _ hr] at hlook
        exact h r' ls' hlook a ha haX b hb

theorem excl_all_same_fold (t : String) :
    ∀ (rs : List String) (st : LMState), excl_all_same st →
      excl_all_same (rs.foldl (fun s r => (release_lock s r t).2) st)
  | [], _, h => h
  | r :: rs, st, h =>
    excl_all_same_fold t rs _ (excl_all_same_release st r t h)

theorem excl_all_same_release_all (st : LMState) (t : String)
    (h : excl_all_same st) : excl_all_same (release_all_locks st t) := by
  unfold release_all_locks
  cases hl : lookupA t st.transaction_locks with
  | none => exact h
  | some rs => exact excl_all_same_fold t rs st h

theorem excl_all_same_reachable {st : LMState} (h : LMReachable st) :
    excl_all_same st := by
  induction h with
  | init =>
    intro r ls hlook
    simp [LMState.init, lookupA] at hlook
  | acq r t m _ ih => exact excl_all_same_acquire _ r t m ih
  | rel r t _ ih => exact excl_all_same_release _ r t ih
  | relAll t _ ih => exact excl_all_same_release_all _ t ih

/-- Claim C5: in every reachable lock-manager state, for every resource:
any two Exclusive locks on it belong to the same transaction (at most one
Exclusive holder), and when a transaction holds an Exclusive lock, no
other transaction holds a Shared lock on the resource. -/
theorem claim_C5 (st : LMState) (h : LMReachable st) (r : String)
    (ls : List LockRec) (hlook : lookupA r st.locks = some ls) :
    (∀ a ∈ ls, a.lock_type = LockType.EXCLUSIVE →
      ∀ b ∈ ls, b.lock_type = LockType.EXCLUSIVE →
        b.transaction_id = a.transaction_id) ∧
    (∀ a ∈ ls, a.lock_type = LockType.EXCLUSIVE →
      ∀ b ∈ ls, b.transaction_id ≠ a.transaction_id →
        b.lock_type ≠ LockType.SHARED) := by
  have hinv := excl_all_same_reachable h
  constructor
  · intro a ha haX b hb _
    exact hinv r ls hlook a ha haX b hb
  · intro a ha haX b hb hne
    exact absurd (hinv r ls hlook a ha haX b hb) hne

/-- Claim C5 witness: the state after transaction `t1` acquires an
Exclusive lock on `accounts` from the initial state is reachable, its
lock table maps `accounts` to that single lock, and the mutual-exclusion
properties hold of it. -/
theorem claim_C5_witness :
    LMReachable
      (acquire_lock LMState.init "accounts" "t1" LockType.EXCLUSIVE).2 ∧
    lookupA "accounts"
        (acquire_lock LMState.init "accounts" "t1"
          LockType.EXCLUSIVE).2.locks =
      some [⟨LockType.EXCLUSIVE, "t1"⟩] ∧
    ((∀ a ∈ [(⟨LockType.EXCLUSIVE, "t1"⟩ : LockRec)],
      a.lock_type = LockType.EXCLUSIVE →
      ∀ b ∈ [(⟨LockType.EXCLUSIVE, "t1"⟩ : LockRec)],
        b.lock_type = LockType.EXCLUSIVE →
        b.transaction_id = a.transaction_id) ∧
    (∀ a ∈ [(⟨LockType.EXCLUSIVE, "t1"⟩ : LockRec)],
      a.lock_type = LockType.EXCLUSIVE →
      ∀ b ∈ [(⟨LockType.EXCLUSIVE, "t1"⟩ : LockRec)],
        b.transaction_id ≠ a.transaction_id →
        b.lock_type ≠ LockType.SHARED)) :=
  ⟨LMReachable.acq "accounts" "t1" LockType.EXCLUSIVE LMReachable.init,
    by decide,
    claim_C5 _
      (LMReachable.acq "accounts" "t1" LockType.EXCLUSIVE LMReachable.init)
      "accounts" _ (by decide)⟩

/-- Claim C9 witness: over the nodes `[3, 1, 2]` starting at index 5,
three consecutive selections return each node exactly once. -/
theorem claim_C9_witness :
    ([3, 1, 2] : List Int) ≠ [] ∧ ([3, 1, 2] : List Int).Nodup ∧
    ∀ x ∈ ([3, 1, 2] : List Int), (round_robin_run [3, 1, 2] 5 3).count x = 1 :=
  ⟨by decide, by decide, by
    have h := (claim_C9 [3, 1, 2] 5 (by decide) (by decide)).2
    simpa using h⟩

/-! ## C10 — consistency of the two lock-table indexes -/

theorem acquire_locks_lookup (st : LMState) (r t : String) (m : LockType)
    (r'' : String) :
    lookupA r'' (acquire_update st r t m).locks =
      if r'' = r then some ((lookupA r st.locks).getD [] ++ [⟨m, t⟩])
      else lookupA r'' st.locks := by
  unfold acquire_update
  dsimp only
  by_cases hr : r'' = r
  · subst hr
    rw [lookupA_setA_self, if_pos rfl]
  · rw [lookupA_setA_ne _ _ _ _ hr, if_neg hr]

theorem acquire_tlocks_lookup (st : LMState) (r t : String) (m : LockType)
    (t'' : String) :
    lookupA t'' (acquire_update st r t m).transaction_locks =
      if t'' = t then
        some (if r ∈ (lookupA t st.transaction_locks).getD [] then
          (lookupA t st.transaction_locks).getD []
        else (lookupA t st.transaction_locks).getD [] ++ [r])
      else lookupA t'' st.transaction_locks := by
  unfold acquire_update
  dsimp only
  by_cases ht : t'' = t
  · subst ht
    rw [lookupA_setA_self, if_pos rfl]
  · rw [lookupA_setA_ne _ _ _ _ ht, if_neg ht]

theorem release_lock_none (st : LMState) (r t : String)
    (h : lookupA r st.locks = none) : release_lock st r t = (false, st) := by
  unfold release_lock
  rw [h]

theorem release_locks_lookup (st : LMState) (r t : String)
    (ls : List LockRec) (hl : lookupA r st.locks = some ls) (r'' : String) :
    lookupA r'' (release_lock st r t).2.locks =
      if r'' = r then
        (if (ls.filter fun l => !(l.transaction_id == t)).isEmpty then none
         else some (ls.filter fun l => !(l.transaction_id == t)))
      else lookupA r'' st.locks := by
  unfold release_lock
  rw [hl]
  dsimp only
  by_cases hf : (ls.filter fun l => !(l.transaction_id == t)).isEmpty
  · rw [if_pos hf, if_pos hf]
    by_cases hr : r'' = r
    · subst hr
      rw [lookupA_eraseA_self, if_pos rfl]
    · rw [lookupA_eraseA_ne _ _ _ hr, if_neg hr]
  · rw [if_neg hf, if_neg hf]
    by_cases hr : r'' = r
    · subst hr
      rw [lookupA_setA_self, if_pos rfl]
    · rw [lookupA_setA_ne _ _ _ _ hr, if_neg hr]

theorem release_tlocks_lookup (st : LMState) (r t : String)
    (ls : List LockRec) (hl : lookupA r st.locks = some ls) (t'' : String) :
    lookupA t'' (release_lock st r t).2.transaction_locks =
      if t'' = t then
        (match lookupA t st.transaction_locks with
         | none => none
         | some rs =>
           if (rs.filter fun x => !(x == r)).isEmpty then none
           else some (rs.filter fun x => !(x == r)))
      else lookupA t'' st.transaction_locks := by
  unfold release_lock
  rw [hl]
  dsimp only
  cases hlt : lookupA t st.transaction_locks with
  | none =>
    dsimp only
    by_cases ht : t'' = t
    · subst ht
      rw [if_pos rfl, hlt]
    · rw [if_neg ht]
  | some rs =>
    dsimp only
    by_cases hrs : (rs.filter fun x => !(x == r)).isEmpty
    · rw [if_pos hrs]
      by_cases ht : t'' = t
      · subst ht
        rw [lookupA_eraseA_self, if_pos rfl, if_pos hrs]
      · rw [lookupA_eraseA_ne _ _ _ ht, if_neg ht]
    · rw [if_neg hrs]
      by_cases ht : t'' = t
      · subst ht
        rw [lookupA_setA_self, if_pos rfl, if_neg hrs]
      · rw [lookupA_setA_ne _ _ _ _ ht, if_neg ht]

theorem lm_iff_getD_acquire (st : LMState) (r t : String) (m : LockType)
    (h : lm_iff_getD st) : lm_iff_getD (acquire_lock st r t m).2 := by
  unfold acquire_lock
  by_cases hcan : can_acquire st.locks r t m = true
  · rw [if_pos hcan]
    intro t' r'
    rw [show ((true, acquire_update st r t m).2 : LMState) =
      acquire_update st r t m from rfl]
    rw [acquire_locks_lookup, acquire_tlocks_lookup]
    by_cases ht : t' = t <;> by_cases hr : r' = r
    · subst ht
      subst hr
      rw [if_pos rfl, if_pos rfl]
      simp only [Option.getD_some]
      apply iff_of_true
      · by_cases hm : r' ∈ (lookupA t' st.transaction_locks).getD []
        · rw [if_pos hm]
          exact hm
        · rw [if_neg hm]
          simp
      · exact ⟨⟨m, t'⟩, by simp, rfl⟩
    · subst ht
      rw [if_pos rfl, if_neg hr]
      simp only [Option.getD_some]
      have hmm : r' ∈ (if r ∈ (lookupA t' st.transaction_locks).getD [] then
            (lookupA t' st.transaction_locks).getD []
          else (lookupA t' st.transaction_locks).getD [] ++ [r]) ↔
          r' ∈ (lookupA t' st.transaction_locks).getD [] := by
        by_cases hm : r ∈ (lookupA t' st.transaction_locks).getD []
        · rw [if_pos hm]
        · rw [if_neg hm]
          simp [hr]
      rw [hmm]
      exact h t' r'
    · subst hr
      rw [if_neg ht, if_pos rfl]
      simp only [Option.getD_some]
      rw [h t' r']
      constructor
      · rintro ⟨l, hlm, hlt⟩
        exact ⟨l, List.mem_append_left _ hlm, hlt⟩
      · rintro ⟨l, hlm, hlt⟩
        rcases List.mem_append.mp hlm with hc | hn
        · exact ⟨l, hc, hlt⟩
        · simp at hn
          rw [hn] at hlt
          exact absurd hlt.symm ht
    · rw [if_neg ht, if_neg hr]
      exact h t' r'
  · rw [if_neg hcan]
    exact h

theorem lm_iff_getD_release (st : LMState) (r t : String)
    (h : lm_iff_getD st) : lm_iff_getD (release_lock st r t).2 := by
  cases hl : lookupA r st.locks with
  | none =>
    rw [release_lock_none st r t hl]
    exact h
  | some ls =>
    intro t' r'
    rw [release_locks_lookup st r t ls hl, release_tlocks_lookup st r t ls hl]
    have hgd : ∀ (o : Option (List String)),
        ((match o with
          | none => none
          | some rs =>
            if (rs.filter fun x => !(x == r)).isEmpty then none
            else some (rs.filter fun x => !(x == r))) :
              Option (List String)).getD [] =
          (o.getD []).filter fun x => !(x == r) := by
      intro o
      cases o with
      | none => rfl
      | some rs =>
        dsimp only
        by_cases hrs : (rs.filter fun x => !(x == r)).isEmpty
        · rw [if_pos hrs]
          simp only [Option.getD_none, Option.getD_some]
          exact (List.isEmpty_iff.mp hrs).symm
        · rw [if_neg hrs]
          rfl
    have hfd :
        ((if (ls.filter fun l => !(l.transaction_id == t)).isEmpty then none
          else some (ls.filter fun l => !(l.transaction_id == t))) :
            Option (List LockRec)).getD [] =
          ls.filter fun l => !(l.transaction_id == t) := by
      by_cases hf : (ls.filter fun l => !(l.transaction_id == t)).isEmpty
      · rw [if_pos hf]
        simp only [Option.getD_none]
        exact (List.isEmpty_iff.mp hf).symm
      · rw [if_neg hf]
        rfl
    by_cases ht : t' = t <;> by_cases hr : r' = r
    · subst ht
      subst hr
      rw [if_pos rfl, if_pos rfl, hgd, hfd]
      apply iff_of_false
      · intro hmem
        have := (List.mem_filter.mp hmem).2
        simp at this
      · rintro ⟨l, hlm, hlt⟩
        have := (List.mem_filter.mp hlm).2
        simp at this
        exact this hlt
    · subst ht
      rw [if_pos rfl, if_neg hr, hgd]
      have hmm : r' ∈ ((lookupA t' st.transaction_locks).getD []).filter
            (fun x => !(x == r)) ↔
          r' ∈ (lookupA t' st.transaction_locks).getD [] := by
        simp [List.mem_filter, hr]
      rw [hmm]
      exact h t' r'
    · subst hr
      rw [if_neg ht, if_pos rfl, hfd]
      rw [h t' r', hl]
      simp only [Option.getD_some]
      constructor
      · rintro ⟨l, hlm, hlt⟩
        refine ⟨l, List.mem_filter.mpr ⟨hlm, ?_⟩, hlt⟩
        simp only [Bool.not_eq_true', beq_eq_false_iff_ne, ne_eq]
        rw [hlt]
        exact ht
      · rintro ⟨l, hlm, hlt⟩
        exact ⟨l, (List.mem_filter.mp hlm).1, hlt⟩
    · rw [if_neg ht, if_neg hr]
      exact h t' r'

theorem lm_iff_getD_fold (t : String) :
    ∀ (rs : List String) (st : LMState), lm_iff_getD st →
      lm_iff_getD (rs.foldl (fun s r => (release_lock s r t).2) st)
  | [], _, h => h
  | r :: rs, st, h =>
    lm_iff_getD_fold t rs _ (lm_iff_getD_release st r t h)

theorem lm_iff_getD_release_all (st : LMState) (t : String)
    (h : lm_iff_getD st) : lm_iff_getD (release_all_locks st t) := by
  unfold release_all_locks
  cases hl : lookupA t st.transaction_locks with
  | none => exact h
  | some rs => exact lm_iff_getD_fold t rs st h

theorem lm_iff_getD_reachable {st : LMState} (h : LMReachable st) :
    lm_iff_getD st := by
  induction h with
  | init =>
    intro t' r'
    simp [LMState.init, lookupA]
  | acq r t m _ ih => exact lm_iff_getD_acquire _ r t m ih
  | rel r t _ ih => exact lm_iff_getD_release _ r t ih
  | relAll t _ ih => exact lm_iff_getD_release_all _ t ih

/-- The no-empty-entry halves of the consistency invariant, bundled for
the induction. -/
theorem lm_nonempty_acquire (st : LMState) (r t : String) (m : LockType)
    (h1 : ∀ r', lookupA r' st.locks ≠ some [])
    (h2 : ∀ t', lookupA t' st.transaction_locks ≠ some []) :
    (∀ r', lookupA r' (acquire_lock st r t m).2.locks ≠ some []) ∧
    (∀ t', lookupA t' (acquire_lock st r t m).2.transaction_locks ≠
      some []) := by
  unfold acquire_lock
  by_cases hcan : can_acquire st.locks r t m = true
  · rw [if_pos hcan]
    constructor
    · intro r' hc
      rw [show ((true, acquire_update st r t m).2 : LMState) =
        acquire_update st r t m from rfl] at hc
      rw [acquire_locks_lookup] at hc
      by_cases hr : r' = r
      · rw [if_pos hr] at hc
        simp at hc
      · rw [if_neg hr] at hc
        exact h1 r' hc
    · intro t' hc
      rw [show ((true, acquire_update st r t m).2 : LMState) =
        acquire_update st r t m from rfl] at hc
      rw [acquire_tlocks_lookup] at hc
      by_cases ht : t' = t
      · rw [if_pos ht] at hc
        by_cases hm : r ∈ (lookupA t st.transaction_locks).getD []
        · rw [if_pos hm] at hc
          have := Option.some.inj hc
          rw [this] at hm
          simp at hm
        · rw [if_neg hm] at hc
          simp at hc
      · rw [if_neg ht] at hc
        exact h2 t' hc
  · rw [if_neg hcan]
    exact ⟨h1, h2⟩

theorem lm_nonempty_release (st : LMState) (r t : String)
    (h1 : ∀ r', lookupA r' st.locks ≠ some [])
    (h2 : ∀ t', lookupA t' st.transaction_locks ≠ some []) :
    (∀ r', lookupA r' (release_lock st r t).2.locks ≠ some []) ∧
    (∀ t', lookupA t' (release_lock st r t).2.transaction_locks ≠
      some []) := by
  cases hl : lookupA r st.locks with
  | none =>
    rw [release_lock_none st r t hl]
    exact ⟨h1, h2⟩
  | some ls =>
    constructor
    · intro r' hc
      rw [release_locks_lookup st r t ls hl] at hc
      by_cases hr : r' = r
      · rw [if_pos hr] at hc
        by_cases hf : (ls.filter fun l => !(l.transaction_id == t)).isEmpty
        · rw [if_pos hf] at hc
          exact absurd hc (by simp)
        · rw [if_neg hf] at hc
          have := Option.some.inj hc
          rw [this] at hf
          simp at hf
      · rw [if_neg hr] at hc
        exact h1 r' hc
    · intro t' hc
      rw [release_tlocks_lookup st r t ls hl] at hc
      by_cases ht : t' = t
      · rw [if_pos ht] at hc
        cases hlt : lookupA t st.transaction_locks with
        | none =>
          rw [hlt] at hc
          exact absurd hc (by simp)
        | some rs =>
          rw [hlt] at hc
          dsimp only at hc
          by_cases hrs : (rs.filter fun x => !(x == r)).isEmpty
          · rw [if_pos hrs] at hc
            exact absurd hc (by simp)
          · rw [if_neg hrs] at hc
            have := Option.some.inj hc
            rw [this] at hrs
            simp at hrs
      · rw [if_neg ht] at hc
        exact h2 t' hc

theorem lm_nonempty_fold (t : String) :
    ∀ (rs : List String) (st : LMState),
      (∀ r', lookupA r' st.locks ≠ some []) →
      (∀ t', lookupA t' st.transaction_locks ≠ some []) →
      (∀ r', lookupA r'
        (rs.foldl (fun s r => (release_lock s r t).2) st).locks ≠
          some []) ∧
      (∀ t', lookupA t'
        (rs.foldl (fun s r => (release_lock s r t).2) st).transaction_locks ≠
          some [])
  | [], _, h1, h2 => ⟨h1, h2⟩
  | r :: rs, st, h1, h2 =>
    lm_nonempty_fold t rs _ (lm_nonempty_release st r t h1 h2).1
      (lm_nonempty_release st r t h1 h2).2

theorem lm_nonempty_reachable {st : LMState} (h : LMReachable st) :
    (∀ r', lookupA r' st.locks ≠ some []) ∧
    (∀ t', lookupA t' st.transaction_locks ≠ some []) := by
  induction h with
  | init =>
    constructor
    · intro r' hc
      simp [LMState.init, lookupA] at hc
    · intro t' hc
      simp [LMState.init, lookupA] at hc
  | acq r t m _ ih => exact lm_nonempty_acquire _ r t m ih.1 ih.2
  | rel r t _ ih => exact lm_nonempty_release _ r t ih.1 ih.2
  | relAll t _ ih =>
    rename_i st' _
    unfold release_all_locks
    cases hl : lookupA t st'.transaction_locks with
    | none => exact ih
    | some rs => exact lm_nonempty_fold t rs st' ih.1 ih.2

theorem mem_getD_iff_exists (d : List (String × List String))
    (t' r' : String) :
    (∃ rs, lookupA t' d = some rs ∧ r' ∈ rs) ↔
      r' ∈ (lookupA t' d).getD [] := by
  cases hl : lookupA t' d <;> simp [hl]

theorem exists_lock_getD_iff (d : List (String × List LockRec))
    (r' t' : String) :
    (∃ ls, lookupA r' d = some ls ∧ ∃ l ∈ ls, l.transaction_id = t') ↔
      ∃ l ∈ (lookupA r' d).getD [], l.transaction_id = t' := by
  cases hl : lookupA r' d <;> simp [hl]

/-- Claim C10: in every reachable lock-manager state, the two indexes are
consistent — a resource is in `transaction_locks[t]` exactly when some
lock with that transaction id is in `locks[r]` — and neither table maps a
key to an empty entry. -/
theorem claim_C10 (st : LMState) (h : LMReachable st) : lm_consistent st := by
  refine ⟨?_, (lm_nonempty_reachable h).1, (lm_nonempty_reachable h).2⟩
  intro t r
  rw [mem_getD_iff_exists, exists_lock_getD_iff]
  exact lm_iff_getD_reachable h t r

/-- Claim C10 witness: the state reached by a Shared acquire followed by
an unrelated release is consistent. -/
theorem claim_C10_witness :
    lm_consistent
      (release_lock
        (acquire_lock LMState.init "accounts" "t1" LockType.SHARED).2
        "orders" "t1").2 :=
  claim_C10 _
    (LMReachable.rel "orders" "t1"
      (LMReachable.acq "accounts" "t1" LockType.SHARED LMReachable.init))

/-! ## C1 and C2 — the two-phase-commit coordinator -/

theorem phase1_no_of_bad (selfId : Int) (prep : PNode → ReplyOutcome) :
    ∀ (parts : List PNode) (n : PNode), n ∈ parts → n.id ≠ selfId →
      prep n ≠ ReplyOutcome.resp (some TRANSACTION_VOTE_YES) →
      n.id ∈ (phase1_prepare selfId prep parts).2 := by
  intro parts
  induction parts with
  | nil => intro n hn; simp at hn
  | cons p rest ih =>
    intro n hn hne hbad
    rcases List.mem_cons.mp hn with hp | hr
    · subst hp
      unfold phase1_prepare
      rw [if_neg hne]
      cases hpo : prep n with
      | err => simp
      | noResp => simp
      | resp ty =>
        cases ty with
        | none => simp
        | some s =>
          dsimp only
          by_cases hs : s = TRANSACTION_VOTE_YES
          · subst hs
            exact absurd hpo hbad
          · rw [if_neg hs]
            simp
    · have hmem := ih n hr hne hbad
      unfold phase1_prepare
      by_cases hself : p.id = selfId
      · rw [if_pos hself]
        exact hmem
      · rw [if_neg hself]
        cases hpo : prep p with
        | err => exact List.mem_cons_of_mem _ hmem
        | noResp => exact List.mem_cons_of_mem _ hmem
        | resp ty =>
          cases ty with
          | none => exact List.mem_cons_of_mem _ hmem
          | some s =>
            dsimp only
            by_cases hs : s = TRANSACTION_VOTE_YES
            · rw [if_pos hs]
              exact hmem
            · rw [if_neg hs]
              exact List.mem_cons_of_mem _ hmem

theorem phase1_no_nil_of_yes (selfId : Int) (prep : PNode → ReplyOutcome) :
    ∀ parts : List PNode,
      (∀ n ∈ parts, n.id ≠ selfId →
        prep n = ReplyOutcome.resp (some TRANSACTION_VOTE_YES)) →
      (phase1_prepare selfId prep parts).2 = [] := by
  intro parts
  induction parts with
  | nil => intro _; rfl
  | cons p rest ih =>
    intro h
    have hrest := ih fun n hn => h n (List.mem_cons_of_mem _ hn)
    unfold phase1_prepare
    by_cases hself : p.id = selfId
    · rw [if_pos hself]
      exact hrest
    · rw [if_neg hself]
      rw [h p (List.mem_cons_self p rest) hself]
      dsimp only
      rw [if_pos rfl]
      exact hrest

theorem mem_sends_to_remotes (ty : String) (selfId : Int)
    (parts : List PNode) (n : PNode) (hn : n ∈ parts)
    (hne : n.id ≠ selfId) :
    (ty, n.id) ∈ sends_to_remotes ty selfId parts := by
  unfold sends_to_remotes
  refine List.mem_map.mpr ⟨n, List.mem_filter.mpr ⟨hn, ?_⟩, rfl⟩
  simp [hne]

theorem sends_to_remotes_type (ty : String) (selfId : Int)
    (parts : List PNode) (e : String × Int)
    (he : e ∈ sends_to_remotes ty selfId parts) : e.1 = ty := by
  unfold sends_to_remotes at he
  obtain ⟨n, -, rfl⟩ := List.mem_map.mp he
  rfl

/-- Claim C1: whenever some remote participant's prepare reply is missing,
malformed, an error, or an explicit NO vote, `execute_2pc` broadcasts
`TRANSACTION_ABORT` to every remote participant, never sends
`TRANSACTION_COMMIT` to anyone, and returns `success = false` with
`phase = 'prepare'`. -/
theorem claim_C1 (selfId : Int) (tid q : String) (parts : List PNode)
    (prep commitReply : PNode → ReplyOutcome)
    (hbad : ∃ n ∈ parts, n.id ≠ selfId ∧
      prep n ≠ ReplyOutcome.resp (some TRANSACTION_VOTE_YES)) :
    (execute_2pc selfId tid q parts prep commitReply).1.success = false ∧
    (execute_2pc selfId tid q parts prep commitReply).1.phase =
      some "prepare" ∧
    (∀ n ∈ parts, n.id ≠ selfId →
      (TRANSACTION_ABORT, n.id) ∈
        (execute_2pc selfId tid q parts prep commitReply).2) ∧
    (∀ e ∈ (execute_2pc selfId tid q parts prep commitReply).2,
      e.1 ≠ TRANSACTION_COMMIT) := by
  obtain ⟨n0, hn0, hne0, hbad0⟩ := hbad
  have hno : (phase1_prepare selfId prep parts).2 ≠ [] :=
    List.ne_nil_of_mem (phase1_no_of_bad selfId prep parts n0 hn0 hne0 hbad0)
  have hcond : ¬ ((phase1_prepare selfId prep parts).2.isEmpty = true) := by
    rw [List.isEmpty_iff]
    exact hno
  unfold execute_2pc
  rw [if_neg hcond]
  refine ⟨rfl, rfl, ?_, ?_⟩
  · intro n hn hne
    exact List.mem_append_right _
      (mem_sends_to_remotes TRANSACTION_ABORT selfId parts n hn hne)
  · intro e he
    rcases List.mem_append.mp he with hp | ha
    · rw [sends_to_remotes_type _ _ _ _ hp]
      decide
    · rw [sends_to_remotes_type _ _ _ _ ha]
      decide

/-- Claim C1 witness: with coordinator 1 and remote participant 2 voting
NO, the run aborts in phase `prepare` and never sends a commit. -/
theorem claim_C1_witness :
    (execute_2pc 1 "TXN-1" "INSERT INTO t VALUES (1)"
      [⟨1, "h1", 5001⟩, ⟨2, "h2", 5002⟩]
      (fun n => if n.id = 2 then ReplyOutcome.resp (some TRANSACTION_VOTE_NO)
        else ReplyOutcome.resp (some TRANSACTION_VOTE_YES))
      (fun _ => ReplyOutcome.noResp)).1.success = false ∧
    (execute_2pc 1 "TXN-1" "INSERT INTO t VALUES (1)"
      [⟨1, "h1", 5001⟩, ⟨2, "h2", 5002⟩]
      (fun n => if n.id = 2 then ReplyOutcome.resp (some TRANSACTION_VOTE_NO)
        else ReplyOutcome.resp (some TRANSACTION_VOTE_YES))
      (fun _ => ReplyOutcome.noResp)).1.phase = some "prepare" ∧
    (∀ n ∈ [(⟨1, "h1", 5001⟩ : PNode), ⟨2, "h2", 5002⟩], n.id ≠ 1 →
      (TRANSACTION_ABORT, n.id) ∈
        (execute_2pc 1 "TXN-1" "INSERT INTO t VALUES (1)"
          [⟨1, "h1", 5001⟩, ⟨2, "h2", 5002⟩]
          (fun n => if n.id = 2 then
              ReplyOutcome.resp (some TRANSACTION_VOTE_NO)
            else ReplyOutcome.resp (some TRANSACTION_VOTE_YES))
          (fun _ => ReplyOutcome.noResp)).2) ∧
    (∀ e ∈ (execute_2pc 1 "TXN-1" "INSERT INTO t VALUES (1)"
        [⟨1, "h1", 5001⟩, ⟨2, "h2", 5002⟩]
        (fun n => if n.id = 2 then
            ReplyOutcome.resp (some TRANSACTION_VOTE_NO)
          else ReplyOutcome.resp (some TRANSACTION_VOTE_YES))
        (fun _ => ReplyOutcome.noResp)).2,
      e.1 ≠ TRANSACTION_COMMIT) :=
  claim_C1 1 "TXN-1" "INSERT INTO t VALUES (1)"
    [⟨1, "h1", 5001⟩, ⟨2, "h2", 5002⟩]
    (fun n => if n.id = 2 then ReplyOutcome.resp (some TRANSACTION_VOTE_NO)
      else ReplyOutcome.resp (some TRANSACTION_VOTE_YES))
    (fun _ => ReplyOutcome.noResp)
    ⟨⟨2, "h2", 5002⟩, by decide, by decide, by decide⟩

/-- Claim C2 counterexample: with every remote participant voting YES in
the prepare phase but one failing to acknowledge the commit,
`execute_2pc` returns `success = false` (with `phase = 'commit'`),
falsifying the claim that the returned result has `success = true`
regardless of ack failures. -/
theorem claim_C2_counterexample :
    (∀ n ∈ [(⟨1, "h1", 5001⟩ : PNode), ⟨2, "h2", 5002⟩], n.id ≠ 1 →
      (fun (_ : PNode) =>
        ReplyOutcome.resp (some TRANSACTION_VOTE_YES)) n =
        ReplyOutcome.resp (some TRANSACTION_VOTE_YES)) ∧
    (execute_2pc 1 "TXN-2" "INSERT INTO t VALUES (2)"
      [⟨1, "h1", 5001⟩, ⟨2, "h2", 5002⟩]
      (fun _ => ReplyOutcome.resp (some TRANSACTION_VOTE_YES))
      (fun _ => ReplyOutcome.noResp)).1.success = false ∧
    (execute_2pc 1 "TXN-2" "INSERT INTO t VALUES (2)"
      [⟨1, "h1", 5001⟩, ⟨2, "h2", 5002⟩]
      (fun _ => ReplyOutcome.resp (some TRANSACTION_VOTE_YES))
      (fun _ => ReplyOutcome.noResp)).1.phase = some "commit" := by
  refine ⟨?_, ?_, ?_⟩ <;> decide

/-- Claim C2 (amended): when every remote participant votes YES, the
protocol decision is Commit — `TRANSACTION_COMMIT` is sent to every
remote participant and no `TRANSACTION_ABORT` is ever sent — but the
dictionary `execute_2pc` returns has `success = true` only when every
remote participant acknowledges the commit; if some acknowledgement
fails, the result is `success = false` with `phase = 'commit'`. -/
theorem claim_C2_amended (selfId : Int) (tid q : String)
    (parts : List PNode) (prep commitReply : PNode → ReplyOutcome)
    (hyes : ∀ n ∈ parts, n.id ≠ selfId →
      prep n = ReplyOutcome.resp (some TRANSACTION_VOTE_YES)) :
    (∀ n ∈ parts, n.id ≠ selfId →
      (TRANSACTION_COMMIT, n.id) ∈
        (execute_2pc selfId tid q parts prep commitReply).2) ∧
    (∀ e ∈ (execute_2pc selfId tid q parts prep commitReply).2,
      e.1 ≠ TRANSACTION_ABORT) ∧
    ((execute_2pc selfId tid q parts prep commitReply).1.success = true ↔
      (phase2_commit selfId commitReply parts).2 = []) ∧
    ((phase2_commit selfId commitReply parts).2 ≠ [] →
      (execute_2pc selfId tid q parts prep commitReply).1.success = false ∧
      (execute_2pc selfId tid q parts prep commitReply).1.phase =
        some "commit") := by
  have hnil := phase1_no_nil_of_yes selfId prep parts hyes
  have hcond : (phase1_prepare selfId prep parts).2.isEmpty = true := by
    rw [List.isEmpty_iff]
    exact hnil
  unfold execute_2pc
  rw [if_pos hcond]
  by_cases hack : (phase2_commit selfId commitReply parts).2.isEmpty = true
  · rw [if_pos hack]
    refine ⟨?_, ?_, ?_, ?_⟩
    · intro n hn hne
      exact List.mem_append_right _
        (mem_sends_to_remotes TRANSACTION_COMMIT selfId parts n hn hne)
    · intro e he
      rcases List.mem_append.mp he with hp | hc
      · rw [sends_to_remotes_type _ _ _ _ hp]
        decide
      · rw [sends_to_remotes_type _ _ _ _ hc]
        decide
    · simp only [true_iff]
      exact List.isEmpty_iff.mp hack
    · intro hne
      exact absurd (List.isEmpty_iff.mp hack) hne
  · rw [if_neg hack]
    refine ⟨?_, ?_, ?_, ?_⟩
    · intro n hn hne
      exact List.mem_append_right _
        (mem_sends_to_remotes TRANSACTION_COMMIT selfId parts n hn hne)
    · intro e he
      rcases List.mem_append.mp he with hp | hc
      · rw [sends_to_remotes_type _ _ _ _ hp]
        decide
      · rw [sends_to_remotes_type _ _ _ _ hc]
        decide
    · simp only [Bool.false_eq_true, false_iff]
      intro hc
      rw [List.isEmpty_iff] at hack
      exact hack hc
    · intro _
      exact ⟨rfl, rfl⟩

/-- Claim C2 witness: at the counterexample inputs (both votes YES, node 2
never acknowledging), the amended behaviour holds: commit was broadcast,
no abort was sent, and the result is a phase-commit failure. -/
theorem claim_C2_amended_witness :
    (∀ n ∈ [(⟨1, "h1", 5001⟩ : PNode), ⟨2, "h2", 5002⟩], n.id ≠ 1 →
      (TRANSACTION_COMMIT, n.id) ∈
        (execute_2pc 1 "TXN-2" "INSERT INTO t VALUES (2)"
          [⟨1, "h1", 5001⟩, ⟨2, "h2", 5002⟩]
          (fun _ => ReplyOutcome.resp (some TRANSACTION_VOTE_YES))
          (fun _ => ReplyOutcome.noResp)).2) ∧
    (∀ e ∈ (execute_2pc 1 "TXN-2" "INSERT INTO t VALUES (2)"
        [⟨1, "h1", 5001⟩, ⟨2, "h2", 5002⟩]
        (fun _ => ReplyOutcome.resp (some TRANSACTION_VOTE_YES))
        (fun _ => ReplyOutcome.noResp)).2,
      e.1 ≠ TRANSACTION_ABORT) ∧
    ((execute_2pc 1 "TXN-2" "INSERT INTO t VALUES (2)"
        [⟨1, "h1", 5001⟩, ⟨2, "h2", 5002⟩]
        (fun _ => ReplyOutcome.resp (some TRANSACTION_VOTE_YES))
        (fun _ => ReplyOutcome.noResp)).1.success = true ↔
      (phase2_commit 1 (fun _ => ReplyOutcome.noResp)
        [⟨1, "h1", 5001⟩, ⟨2, "h2", 5002⟩]).2 = []) ∧
    ((phase2_commit 1 (fun _ => ReplyOutcome.noResp)
        [⟨1, "h1", 5001⟩, ⟨2, "h2", 5002⟩]).2 ≠ [] →
      (execute_2pc 1 "TXN-2" "INSERT INTO t VALUES (2)"
        [⟨1, "h1", 5001⟩, ⟨2, "h2", 5002⟩]
        (fun _ => ReplyOutcome.resp (some TRANSACTION_VOTE_YES))
        (fun _ => ReplyOutcome.noResp)).1.success = false ∧
      (execute_2pc 1 "TXN-2" "INSERT INTO t VALUES (2)"
        [⟨1, "h1", 5001⟩, ⟨2, "h2", 5002⟩]
        (fun _ => ReplyOutcome.resp (some TRANSACTION_VOTE_YES))
        (fun _ => ReplyOutcome.noResp)).1.phase = some "commit") :=
  claim_C2_amended 1 "TXN-2" "INSERT INTO t VALUES (2)"
    [⟨1, "h1", 5001⟩, ⟨2, "h2", 5002⟩]
    (fun _ => ReplyOutcome.resp (some TRANSACTION_VOTE_YES))
    (fun _ => ReplyOutcome.noResp)
    (by decide)

/-! ## C7 — participant handlers on unknown transactions -/

theorem begin_lookup_self (tm : TMState) (t : String) :
    (lookupA t (begin_transaction tm t).active_transactions).isSome =
      true := by
  unfold begin_transaction
  by_cases hp : (lookupA t tm.active_transactions).isSome
  · rw [if_pos hp]
    exact hp
  · rw [if_neg hp]
    dsimp only
    rw [lookupA_setA_self]
    rfl

theorem begin_lookup_ne (tm : TMState) (t t'' : String) (h : t'' ≠ t) :
    lookupA t'' (begin_transaction tm t).active_transactions =
      lookupA t'' tm.active_transactions := by
  unfold begin_transaction
  by_cases hp : (lookupA t tm.active_transactions).isSome
  · rw [if_pos hp]
  · rw [if_neg hp]
    dsimp only
    rw [lookupA_setA_ne _ _ _ _ h]

theorem abort_lookup_self (tm : TMState) (t : String) :
    lookupA t (abort_transaction tm t).active_transactions = none := by
  unfold abort_transaction
  by_cases hp : (lookupA t tm.active_transactions).isSome
  · rw [if_pos hp]
    dsimp only
    exact lookupA_eraseA_self t tm.active_transactions
  · rw [if_neg hp]
    exact Option.not_isSome_iff_eq_none.mp hp

theorem abort_lookup_ne (tm : TMState) (t t'' : String) (h : t'' ≠ t) :
    lookupA t'' (abort_transaction tm t).active_transactions =
      lookupA t'' tm.active_transactions := by
  unfold abort_transaction
  by_cases hp : (lookupA t tm.active_transactions).isSome
  · rw [if_pos hp]
    dsimp only
    exact lookupA_eraseA_ne _ _ _ h
  · rw [if_neg hp]

theorem registry_in_prepared_prep (ps : ParticipantState) (t q : String)
    (o : PrepareOutcome) (h : registry_in_prepared ps) :
    registry_in_prepared (handle_prepare ps t q o).2 := by
  unfold handle_prepare
  cases o with
  | ok =>
    intro t'' hact
    dsimp only at hact ⊢
    by_cases ht : t'' = t
    · subst ht
      rw [lookupA_setA_self]
      rfl
    · rw [begin_lookup_ne ps.tm t t'' ht] at hact
      rw [lookupA_setA_ne _ _ _ _ ht]
      exact h t'' hact
  | voteNo =>
    intro t'' hact
    dsimp only at hact ⊢
    by_cases ht : t'' = t
    · subst ht
      rw [abort_lookup_self] at hact
      simp at hact
    · rw [abort_lookup_ne _ t t'' ht, begin_lookup_ne ps.tm t t'' ht]
        at hact
      exact h t'' hact
  | raisesExc =>
    intro t'' hact
    dsimp only at hact ⊢
    by_cases ht : t'' = t
    · subst ht
      rw [abort_lookup_self] at hact
      simp at hact
    · rw [abort_lookup_ne _ t t'' ht, begin_lookup_ne ps.tm t t'' ht]
        at hact
      exact h t'' hact

theorem registry_in_prepared_commit (ps : ParticipantState) (t : String)
    (er : Bool) (h : registry_in_prepared ps) :
    registry_in_prepared (handle_commit ps t er).2.1 := by
  unfold handle_commit
  cases hp : lookupA t ps.prepared_transactions with
  | none => exact h
  | some q =>
    by_cases her : er = true
    · rw [if_pos her]
      exact h
    · rw [if_neg her]
      unfold commit_transaction
      by_cases hact : (lookupA t ps.tm.active_transactions).isSome
      · rw [if_pos hact]
        intro t'' hact''
        dsimp only at hact'' ⊢
        by_cases ht : t'' = t
        · subst ht
          rw [lookupA_eraseA_self] at hact''
          simp at hact''
        · rw [lookupA_eraseA_ne _ _ _ ht] at hact''
          rw [lookupA_eraseA_ne _ _ _ ht]
          exact h t'' hact''
      · rw [if_neg hact]
        exact h

theorem registry_in_prepared_abort (ps : ParticipantState) (t : String)
    (ar : Bool) (h : registry_in_prepared ps) :
    registry_in_prepared (handle_abort ps t ar) := by
  unfold handle_abort
  cases hp : lookupA t ps.prepared_transactions with
  | none =>
    intro t'' hact
    dsimp only at hact ⊢
    by_cases ht : t'' = t
    · subst ht
      rw [abort_lookup_self] at hact
      simp at hact
    · rw [abort_lookup_ne _ t t'' ht] at hact
      exact h t'' hact
  | some q =>
    by_cases har : ar = true
    · rw [if_pos har]
      exact h
    · rw [if_neg har]
      intro t'' hact
      dsimp only at hact ⊢
      by_cases ht : t'' = t
      · subst ht
        rw [abort_lookup_self] at hact
        simp at hact
      · rw [abort_lookup_ne _ t t'' ht] at hact
        rw [lookupA_eraseA_ne _ _ _ ht]
        exact h t'' hact

theorem registry_in_prepared_reachable {ps : ParticipantState}
    (h : PReachable ps) : registry_in_prepared ps := by
  induction h with
  | init =>
    intro t hact
    simp [ParticipantState.init, lookupA] at hact
  | prep t q o _ ih => exact registry_in_prepared_prep _ t q o ih
  | commit t er _ ih => exact registry_in_prepared_commit _ t er ih
  | abort t ar _ ih => exact registry_in_prepared_abort _ t ar ih

/-- Claim C7: in every reachable participant state, for a transaction id
that is not in the prepared map, `handle_commit` replies `ERROR` without
invoking `commit_prepared_query` and leaves the state (prepared map
included) unchanged, and `handle_abort` is a no-op on the prepared map
and the transaction registry. -/
theorem claim_C7 (ps : ParticipantState) (hre : PReachable ps)
    (t : String) (er ar : Bool)
    (hunk : lookupA t ps.prepared_transactions = none) :
    handle_commit ps t er = (ERROR, ps, false) ∧
    handle_abort ps t ar = ps := by
  constructor
  · unfold handle_commit
    rw [hunk]
  · unfold handle_abort
    rw [hunk]
    have hreg : lookupA t ps.tm.active_transactions = none := by
      rcases hact : lookupA t ps.tm.active_transactions with _ | s
      · rfl
      · have := registry_in_prepared_reachable hre t (by rw [hact]; rfl)
        rw [hunk] at this
        simp at this
    have habort : abort_transaction ps.tm t = ps.tm := by
      unfold abort_transaction
      rw [hreg]
      simp
    rw [habort]

/-- Claim C7 witness: at the initial participant state with the unknown
transaction id `TXN-9`, `handle_commit` replies `ERROR` without state
change and `handle_abort` is a no-op. -/
theorem claim_C7_witness :
    handle_commit ParticipantState.init "TXN-9" false =
      (ERROR, ParticipantState.init, false) ∧
    handle_abort ParticipantState.init "TXN-9" false =
      ParticipantState.init :=
  claim_C7 ParticipantState.init PReachable.init "TXN-9" false false rfl

/-! ## C4 — the message codec

The round-trip proof proceeds bottom-up: whitespace, digits and number
literals, escaped strings, then the three mutually recursive parsing
functions by induction on the parser fuel, and finally the checksum. -/

theorem skipWs_cons_not_ws (c : Char) (s : List Char)
    (h : isWsChar c = false) : skipWs (c :: s) = c :: s := by
  simp [skipWs, h]

theorem skipWs_cons_ws (c : Char) (s : List Char) (h : isWsChar c = true) :
    skipWs (c :: s) = skipWs s := by
  simp [skipWs, h]

theorem digitChar_digit : ∀ d, d < 10 → isDigitC (digitChar d) = true := by
  decide

theorem digitVal_digitChar : ∀ d, d < 10 → digitVal (digitChar d) = d := by
  decide

theorem natToDigits_facts_aux : ∀ (N n : Nat), n ≤ N →
    natToDigits n ≠ [] ∧ (∀ c ∈ natToDigits n, isDigitC c = true) ∧
    ∀ acc, (natToDigits n).foldl (fun a c => a * 10 + digitVal c) acc =
      acc * 10 ^ (natToDigits n).length + n := by
  intro N
  induction N with
  | zero =>
    intro n hn
    have h0 : n = 0 := Nat.le_zero.mp hn
    subst h0
    rw [natToDigits, dif_pos (by omega : (0 : Nat) < 10)]
    refine ⟨by simp, ?_, ?_⟩
    · intro c hc
      simp at hc
      rw [hc]
      exact digitChar_digit 0 (by omega)
    · intro acc
      simp [List.foldl, digitVal_digitChar 0 (by omega)]
  | succ N ih =>
    intro n hn
    by_cases h10 : n < 10
    · rw [natToDigits, dif_pos h10]
      refine ⟨by simp, ?_, ?_⟩
      · intro c hc
        simp at hc
        rw [hc]
        exact digitChar_digit n h10
      · intro acc
        simp [List.foldl, digitVal_digitChar n h10]
    · rw [natToDigits, dif_neg h10]
      have hdiv : n / 10 < n := Nat.div_lt_self (by omega) (by omega)
      obtain ⟨hne, hdig, hfold⟩ := ih (n / 10) (by omega)
      refine ⟨by simp, ?_, ?_⟩
      · intro c hc
        rcases List.mem_append.mp hc with h1 | h2
        · exact hdig c h1
        · simp at h2
          rw [h2]
          exact digitChar_digit _ (Nat.mod_lt _ (by omega))
      · intro acc
        rw [List.foldl_append, hfold acc]
        simp only [List.foldl]
        rw [digitVal_digitChar _ (Nat.mod_lt _ (by omega))]
        rw [List.length_append, List.length_singleton, pow_succ,
          ← mul_assoc]
        have hdm := Nat.div_add_mod n 10
        generalize acc * 10 ^ (natToDigits (n / 10)).length = A
        rw [Nat.add_mul]
        omega

theorem natToDigits_facts (n : Nat) :
    natToDigits n ≠ [] ∧ (∀ c ∈ natToDigits n, isDigitC c = true) ∧
    ∀ acc, (natToDigits n).foldl (fun a c => a * 10 + digitVal c) acc =
      acc * 10 ^ (natToDigits n).length + n :=
  natToDigits_facts_aux n n (Nat.le_refl n)

theorem takeDigits_append (ds : List Char)
    (hds : ∀ c ∈ ds, isDigitC c = true) (rest : List Char)
    (hrest : ∀ c, rest.head? = some c → isDigitC c = false) :
    takeDigits (ds ++ rest) = (ds, rest) := by
  induction ds with
  | nil =>
    cases rest with
    | nil => rfl
    | cons c r =>
      have hc := hrest c rfl
      simp [takeDigits, hc]
  | cons c ds' ih =>
    have hc : isDigitC c = true := hds c (List.mem_cons_self c ds')
    simp only [List.cons_append, takeDigits, hc, if_true]
    show (c :: (takeDigits (ds' ++ rest)).1, (takeDigits (ds' ++ rest)).2) =
      (c :: ds', rest)
    rw [ih (fun x hx => hds x (List.mem_cons_of_mem _ hx))]

theorem digitsToNat_natToDigits (n : Nat) :
    digitsToNat (natToDigits n) = n := by
  have h := (natToDigits_facts n).2.2 0
  simpa [digitsToNat] using h

theorem digit_not_minus (c : Char) (h : isDigitC c = true) : c ≠ '-' := by
  intro he
  rw [he] at h
  exact absurd h (by decide)

theorem parseFrac_rest (rest : List Char)
    (h : ∀ c, rest.head? = some c → c ≠ '.') :
    parseFrac rest = some (none, rest) := by
  cases rest with
  | nil => rfl
  | cons c r =>
    have hc := h c rfl
    simp [parseFrac, hc]

theorem parseExp_rest (rest : List Char)
    (h : ∀ c, rest.head? = some c → c ≠ 'e' ∧ c ≠ 'E') :
    parseExp rest = some (none, rest) := by
  cases rest with
  | nil => rfl
  | cons c r =>
    obtain ⟨h1, h2⟩ := h c rfl
    simp [parseExp, h1, h2]

theorem wfFloatLit_parts (neg : Bool) (ip : List Char)
    (fp : Option (List Char)) (ex : Option (Bool × List Char))
    (h : wfFloatLit ⟨neg, ip, fp, ex⟩ = true) :
    ip ≠ [] ∧ (∀ c ∈ ip, isDigitC c = true) ∧
      (∀ ds, fp = some ds → ds ≠ [] ∧ ∀ c ∈ ds, isDigitC c = true) ∧
      (∀ b ds, ex = some (b, ds) → ds ≠ [] ∧ ∀ c ∈ ds, isDigitC c = true) ∧
      ¬(fp = none ∧ ex = none) := by
  unfold wfFloatLit at h
  dsimp only at h
  simp only [Bool.and_eq_true] at h
  obtain ⟨⟨⟨⟨⟨h1, h2⟩, h3⟩, h4⟩, h5⟩, h6⟩ := h
  refine ⟨?_, ?_, ?_, ?_, ?_⟩
  · intro he
    rw [he] at h1
    exact absurd h1 (by decide)
  · intro c hc
    have h2' : ∀ c ∈ ip, isDigitC c = true := by
      simpa [allDigits, List.all_eq_true] using h2
    exact h2' c hc
  · intro ds hds
    subst hds
    dsimp only at h4
    simp only [Bool.and_eq_true] at h4
    refine ⟨?_, ?_⟩
    · intro he
      rw [he] at h4
      exact absurd h4.1 (by decide)
    · simpa [allDigits, List.all_eq_true] using h4.2
  · intro b ds hds
    subst hds
    dsimp only at h5
    simp only [Bool.and_eq_true] at h5
    refine ⟨?_, ?_⟩
    · intro he
      rw [he] at h5
      exact absurd h5.1 (by decide)
    · simpa [allDigits, List.all_eq_true] using h5.2
  · intro he
    obtain ⟨hf, hx⟩ := he
    subst hf
    subst hx
    exact absurd h6 (by decide)

theorem parseFrac_some (ds rest : List Char) (hds : ds ≠ [])
    (hdig : ∀ c ∈ ds, isDigitC c = true)
    (hrest : ∀ c, rest.head? = some c → isDigitC c = false) :
    parseFrac (fracChars (some ds) ++ rest) = some (some ds, rest) := by
  rw [fracChars]
  simp only [List.cons_append]
  rw [parseFrac]
  rw [if_pos rfl]
  rw [takeDigits_append ds hdig rest hrest]
  obtain ⟨d0, ds0, hds0⟩ := List.exists_cons_of_ne_nil hds
  rw [hds0]

theorem parseExp_some (b : Bool) (ds rest : List Char) (hds : ds ≠ [])
    (hdig : ∀ c ∈ ds, isDigitC c = true)
    (hrest : ∀ c, rest.head? = some c → isDigitC c = false) :
    parseExp (expChars (some (b, ds)) ++ rest) = some (some (b, ds), rest) := by
  rw [expChars]
  obtain ⟨d0, ds0, hds0⟩ := List.exists_cons_of_ne_nil hds
  cases b with
  | false =>
    simp only [List.cons_append]
    rw [show (if (false = true) then '-' else '+') = '+' from rfl]
    rw [parseExp]
    rw [if_pos (Or.inl rfl)]
    rw [if_pos rfl]
    rw [expDigits, takeDigits_append ds hdig rest hrest]
    rw [hds0]
  | true =>
    simp only [List.cons_append]
    simp only [if_true]
    rw [parseExp]
    rw [if_pos (Or.inl rfl)]
    rw [if_neg (by decide), if_pos rfl]
    rw [expDigits, takeDigits_append ds hdig rest hrest]
    rw [hds0]

theorem parseNumTail_int (neg : Bool) (n : Nat) (rest : List Char)
    (hrest : ∀ c, rest.head? = some c →
      isDigitC c = false ∧ c ≠ '.' ∧ c ≠ 'e' ∧ c ≠ 'E') :
    parseNumTail neg (natToDigits n ++ rest) =
      some (Json.num (if neg then -(n : Int) else (n : Int)), rest) := by
  obtain ⟨hne, hdig, -⟩ := natToDigits_facts n
  rw [parseNumTail,
    takeDigits_append _ hdig rest (fun c hc => (hrest c hc).1)]
  dsimp only
  rw [if_neg (fun hh => hne (List.isEmpty_iff.mp hh))]
  rw [parseFrac_rest rest (fun c hc => (hrest c hc).2.1)]
  dsimp only
  rw [parseExp_rest rest
    (fun c hc => ⟨(hrest c hc).2.2.1, (hrest c hc).2.2.2⟩)]
  dsimp only
  rw [if_pos (show ((none : Option (List Char)).isNone &&
    (none : Option (Bool × List Char)).isNone) = true from rfl)]
  rw [digitsToNat_natToDigits]

theorem parseNumber_dumps (i : Int) (rest : List Char)
    (hrest : ∀ c, rest.head? = some c →
      isDigitC c = false ∧ c ≠ '.' ∧ c ≠ 'e' ∧ c ≠ 'E') :
    parseNumber (intToChars i ++ rest) = some (Json.num i, rest) := by
  unfold intToChars
  by_cases hneg : i < 0
  · rw [if_pos hneg]
    simp only [List.cons_append]
    rw [parseNumber]
    rw [if_pos rfl]
    rw [parseNumTail_int true i.natAbs rest hrest]
    rw [if_pos rfl]
    have hv : -((i.natAbs : Nat) : Int) = i := by omega
    rw [hv]
  · rw [if_neg hneg]
    obtain ⟨hne, hdig, -⟩ := natToDigits_facts i.toNat
    obtain ⟨c0, cs0, hds⟩ := List.exists_cons_of_ne_nil hne
    have hc0 : isDigitC c0 = true :=
      hdig c0 (by rw [hds]; exact List.mem_cons_self _ _)
    rw [hds]
    simp only [List.cons_append]
    rw [parseNumber]
    rw [if_neg (fun he => digit_not_minus c0 hc0 he)]
    rw [show c0 :: (cs0 ++ rest) = (c0 :: cs0) ++ rest from rfl, ← hds]
    rw [parseNumTail_int false i.toNat rest hrest]
    rw [if_neg (by decide)]
    have hv : ((i.toNat : Nat) : Int) = i := by omega
    rw [hv]

theorem parseNumTail_float (neg : Bool) (ip : List Char)
    (fp : Option (List Char)) (ex : Option (Bool × List Char))
    (hwf : wfFloatLit ⟨neg, ip, fp, ex⟩ = true) (rest : List Char)
    (hrest : ∀ c, rest.head? = some c →
      isDigitC c = false ∧ c ≠ '.' ∧ c ≠ 'e' ∧ c ≠ 'E') :
    parseNumTail neg (ip ++ (fracChars fp ++ (expChars ex ++ rest))) =
      some (Json.fnum ⟨⟨neg, ip, fp, ex⟩, hwf⟩, rest) := by
  obtain ⟨hip, hipd, hfp, hex, hne⟩ := wfFloatLit_parts neg ip fp ex hwf
  have hipe : ¬(ip.isEmpty = true) := fun hh => hip (List.isEmpty_iff.mp hh)
  cases fp with
  | some ds =>
    obtain ⟨hds, hdsd⟩ := hfp ds rfl
    have hexrest : ∀ c, (expChars ex ++ rest).head? = some c →
        isDigitC c = false := by
      cases ex with
      | none =>
        intro c hc
        rw [expChars] at hc
        simp only [List.nil_append] at hc
        exact (hrest c hc).1
      | some be =>
        intro c hc
        obtain ⟨b, eds⟩ := be
        rw [expChars] at hc
        simp only [List.cons_append, List.head?] at hc
        rw [← Option.some.inj hc]
        decide
    have htd : takeDigits
        (ip ++ (fracChars (some ds) ++ (expChars ex ++ rest))) =
        (ip, fracChars (some ds) ++ (expChars ex ++ rest)) := by
      refine takeDigits_append ip hipd _ ?_
      intro c hc
      rw [fracChars] at hc
      simp only [List.cons_append, List.head?] at hc
      rw [← Option.some.inj hc]
      decide
    rw [parseNumTail, htd]
    dsimp only
    rw [if_neg hipe]
    rw [parseFrac_some ds (expChars ex ++ rest) hds hdsd hexrest]
    dsimp only
    cases ex with
    | none =>
      rw [expChars]
      simp only [List.nil_append]
      rw [parseExp_rest rest
        (fun c hc => ⟨(hrest c hc).2.2.1, (hrest c hc).2.2.2⟩)]
      dsimp only
      rw [if_neg (by simp)]
      rw [dif_pos hwf]
    | some be =>
      obtain ⟨b, eds⟩ := be
      obtain ⟨heds, hedsd⟩ := hex b eds rfl
      rw [parseExp_some b eds rest heds hedsd
        (fun c hc => (hrest c hc).1)]
      dsimp only
      rw [if_neg (by simp)]
      rw [dif_pos hwf]
  | none =>
    cases ex with
    | none => exact absurd ⟨rfl, rfl⟩ hne
    | some be =>
      obtain ⟨b, eds⟩ := be
      obtain ⟨heds, hedsd⟩ := hex b eds rfl
      have htd : takeDigits
          (ip ++ (fracChars none ++ (expChars (some (b, eds)) ++ rest))) =
          (ip, fracChars none ++ (expChars (some (b, eds)) ++ rest)) := by
        refine takeDigits_append ip hipd _ ?_
        intro c hc
        rw [fracChars, expChars] at hc
        simp only [List.nil_append, List.cons_append, List.head?] at hc
        rw [← Option.some.inj hc]
        decide
      rw [parseNumTail, htd]
      dsimp only
      rw [if_neg hipe]
      rw [fracChars]
      simp only [List.nil_append]
      rw [parseFrac_rest (expChars (some (b, eds)) ++ rest) (by
        intro c hc
        rw [expChars] at hc
        simp only [List.cons_append, List.head?] at hc
        rw [← Option.some.inj hc]
        decide)]
      dsimp only
      rw [parseExp_some b eds rest heds hedsd
        (fun c hc => (hrest c hc).1)]
      dsimp only
      rw [if_neg (by simp)]
      rw [dif_pos hwf]

theorem parseNumber_float (neg : Bool) (ip : List Char)
    (fp : Option (List Char)) (ex : Option (Bool × List Char))
    (hwf : wfFloatLit ⟨neg, ip, fp, ex⟩ = true) (rest : List Char)
    (hrest : ∀ c, rest.head? = some c →
      isDigitC c = false ∧ c ≠ '.' ∧ c ≠ 'e' ∧ c ≠ 'E') :
    parseNumber (floatToChars ⟨neg, ip, fp, ex⟩ ++ rest) =
      some (Json.fnum ⟨⟨neg, ip, fp, ex⟩, hwf⟩, rest) := by
  obtain ⟨hip, hipd, -, -, -⟩ := wfFloatLit_parts neg ip fp ex hwf
  cases neg with
  | true =>
    have hform : floatToChars ⟨true, ip, fp, ex⟩ ++ rest =
        '-' :: (ip ++ (fracChars fp ++ (expChars ex ++ rest))) := by
      rw [floatToChars]
      simp
    rw [hform]
    rw [parseNumber]
    rw [if_pos rfl]
    exact parseNumTail_float true ip fp ex hwf rest hrest
  | false =>
    obtain ⟨c0, cs0, hds⟩ := List.exists_cons_of_ne_nil hip
    have hc0 : isDigitC c0 = true :=
      hipd c0 (by rw [hds]; exact List.mem_cons_self _ _)
    have hform : floatToChars ⟨false, ip, fp, ex⟩ ++ rest =
        c0 :: (cs0 ++ (fracChars fp ++ (expChars ex ++ rest))) := by
      rw [floatToChars, hds]
      simp
    rw [hform]
    rw [parseNumber]
    rw [if_neg (fun he => digit_not_minus c0 hc0 he)]
    rw [show c0 :: (cs0 ++ (fracChars fp ++ (expChars ex ++ rest))) =
      (c0 :: cs0) ++ (fracChars fp ++ (expChars ex ++ rest)) from rfl, ← hds]
    exact parseNumTail_float false ip fp ex hwf rest hrest

theorem hex_escape_value : ∀ n, n < 32 →
    hexVal '0' * 4096 + hexVal '0' * 256 +
      hexVal (hexDigitChar (n / 16)) * 16 + hexVal (hexDigitChar (n % 16)) =
      n := by
  decide

theorem parseStringBody_escape : ∀ (cs rest : List Char),
    parseStringBody (escapeStr cs ++ '"' :: rest) = some (cs, rest) := by
  intro cs
  induction cs with
  | nil =>
    intro rest
    show parseStringBody ('"' :: rest) = some ([], rest)
    rw [parseStringBody.eq_def]
    dsimp only
    rw [if_pos rfl]
  | cons c cs' ih =>
    intro rest
    show parseStringBody ((escapeChar c ++ escapeStr cs') ++ '"' :: rest) =
      some (c :: cs', rest)
    rw [List.append_assoc]
    unfold escapeChar
    by_cases h1 : c = '"'
    · rw [if_pos h1]
      subst h1
      simp only [List.cons_append, List.nil_append]
      rw [parseStringBody.eq_def]
      dsimp only
      rw [if_neg (by decide), if_pos rfl]
      simp only [reduceIte]
      rw [ih rest]
      rfl
    · rw [if_neg h1]
      by_cases h2 : c = '\\'
      · rw [if_pos h2]
        subst h2
        simp only [List.cons_append, List.nil_append]
        rw [parseStringBody.eq_def]
        dsimp only
        rw [if_neg (by decide), if_pos rfl]
        simp only [reduceIte]
        rw [ih rest]
        rfl
      · rw [if_neg h2]
        by_cases h3 : c = '\x08'
        · rw [if_pos h3]
          subst h3
          simp only [List.cons_append, List.nil_append]
          rw [parseStringBody.eq_def]
          dsimp only
          rw [if_neg (by decide), if_pos rfl]
          simp only [reduceIte]
          rw [ih rest]
          rfl
        · rw [if_neg h3]
          by_cases h4 : c = '\t'
          · rw [if_pos h4]
            subst h4
            simp only [List.cons_append, List.nil_append]
            rw [parseStringBody.eq_def]
            dsimp only
            rw [if_neg (by decide), if_pos rfl]
            simp only [reduceIte]
            rw [ih rest]
            rfl
          · rw [if_neg h4]
            by_cases h5 : c = '\n'
            · rw [if_pos h5]
              subst h5
              simp only [List.cons_append, List.nil_append]
              rw [parseStringBody.eq_def]
              dsimp only
              rw [if_neg (by decide), if_pos rfl]
              simp only [reduceIte]
              rw [ih rest]
              rfl
            · rw [if_neg h5]
              by_cases h6 : c = '\x0c'
              · rw [if_pos h6]
                subst h6
                simp only [List.cons_append, List.nil_append]
                rw [parseStringBody.eq_def]
                dsimp only
                rw [if_neg (by decide), if_pos rfl]
                simp only [reduceIte]
                rw [ih rest]
                rfl
              · rw [if_neg h6]
                by_cases h7 : c = '\r'
                · rw [if_pos h7]
                  subst h7
                  simp only [List.cons_append, List.nil_append]
                  rw [parseStringBody.eq_def]
                  dsimp only
                  rw [if_neg (by decide), if_pos rfl]
                  simp only [reduceIte]
                  rw [ih rest]
                  rfl
                · rw [if_neg h7]
                  by_cases h8 : c.toNat < 32
                  · rw [if_pos h8]
                    simp only [List.cons_append, List.nil_append]
                    rw [parseStringBody.eq_def]
                    dsimp only
                    rw [if_neg (by decide), if_pos rfl]
                    simp only [reduceIte]
                    rw [ih rest]
                    rw [hex_escape_value c.toNat h8, Char.ofNat_toNat]
                    rfl
                  · rw [if_neg h8]
                    simp only [List.cons_append, List.nil_append]
                    rw [parseStringBody.eq_def]
                    dsimp only
                    rw [if_neg h1, if_neg h2]
                    rw [ih rest]
                    rfl

theorem sizeV_pos : ∀ v : Json, 1 ≤ sizeV v := by
  intro v
  cases v with
  | null => simp [sizeV]
  | bool b => simp [sizeV]
  | num n => simp [sizeV]
  | fnum f => simp [sizeV]
  | str s => simp [sizeV]
  | dt d => simp [sizeV]
  | arr xs => simp [sizeV]
  | obj kvs => simp [sizeV]

theorem digit_head_props (c : Char) (h : isDigitC c = true) :
    isWsChar c = false ∧ c ≠ '"' ∧ c ≠ '\x7b' ∧ c ≠ '[' ∧ c ≠ ']' ∧
      c ≠ '\x7d' ∧ c ≠ ',' ∧ c ≠ ':' ∧ c ≠ 'n' ∧ c ≠ 't' ∧ c ≠ 'f' := by
  have hb : 48 ≤ c.toNat ∧ c.toNat ≤ 57 := by
    simpa [isDigitC, Bool.and_eq_true, decide_eq_true_eq] using h
  have hne : ∀ d : Char, d.toNat < 48 ∨ 57 < d.toNat → c ≠ d := by
    intro d hd he
    rw [he] at hb
    omega
  refine ⟨?_, hne '"' (by decide), hne '\x7b' (by decide),
    hne '[' (by decide), hne ']' (by decide), hne '\x7d' (by decide),
    hne ',' (by decide), hne ':' (by decide), hne 'n' (by decide),
    hne 't' (by decide), hne 'f' (by decide)⟩
  have h1 : (c == ' ') = false := beq_eq_false_iff_ne.mpr (hne ' ' (by decide))
  have h2 : (c == '\t') = false := beq_eq_false_iff_ne.mpr (hne '\t' (by decide))
  have h3 : (c == '\n') = false := beq_eq_false_iff_ne.mpr (hne '\n' (by decide))
  have h4 : (c == '\r') = false := beq_eq_false_iff_ne.mpr (hne '\r' (by decide))
  simp [isWsChar, h1, h2, h3, h4]

theorem dumpsVal_head : ∀ v : Json, ∃ c cs, dumpsVal v = c :: cs ∧
    isWsChar c = false ∧ c ≠ ']' ∧ c ≠ '\x7d' := by
  intro v
  cases v with
  | null => exact ⟨'n', _, by rw [dumpsVal], by decide, by decide, by decide⟩
  | bool b =>
    cases b with
    | true => exact ⟨'t', _, by rw [dumpsVal], by decide, by decide, by decide⟩
    | false => exact ⟨'f', _, by rw [dumpsVal], by decide, by decide, by decide⟩
  | num i =>
    rw [dumpsVal]
    unfold intToChars
    by_cases hneg : i < 0
    · rw [if_pos hneg]
      exact ⟨'-', _, rfl, by decide, by decide, by decide⟩
    · rw [if_neg hneg]
      obtain ⟨hne, hdig, -⟩ := natToDigits_facts i.toNat
      obtain ⟨c0, cs0, hds⟩ := List.exists_cons_of_ne_nil hne
      have hc0 : isDigitC c0 = true :=
        hdig c0 (by rw [hds]; exact List.mem_cons_self _ _)
      obtain ⟨hws, -, -, -, hbr, hbc, -⟩ := digit_head_props c0 hc0
      exact ⟨c0, cs0, hds, hws, hbr, hbc⟩
  | fnum f =>
    obtain ⟨⟨neg, ip, fp, ex⟩, hwf⟩ := f
    rw [dumpsVal]
    obtain ⟨hip, hipd, -, -, -⟩ := wfFloatLit_parts neg ip fp ex hwf
    cases neg with
    | true =>
      refine ⟨'-', ip ++ fracChars fp ++ expChars ex, ?_,
        by decide, by decide, by decide⟩
      rw [floatToChars]
      dsimp only
      simp
    | false =>
      obtain ⟨c0, cs0, hds⟩ := List.exists_cons_of_ne_nil hip
      have hc0 : isDigitC c0 = true :=
        hipd c0 (by rw [hds]; exact List.mem_cons_self _ _)
      obtain ⟨hws, -, -, -, hbr, hbc, -⟩ := digit_head_props c0 hc0
      refine ⟨c0, cs0 ++ fracChars fp ++ expChars ex, ?_,
        hws, hbr, hbc⟩
      rw [floatToChars]
      dsimp only
      rw [hds]
      simp
  | str s => exact ⟨'"', _, by rw [dumpsVal], by decide, by decide, by decide⟩
  | dt d => exact ⟨'"', _, by rw [dumpsVal], by decide, by decide, by decide⟩
  | arr xs =>
    cases xs with
    | nil => exact ⟨'[', _, by rw [dumpsVal], by decide, by decide, by decide⟩
    | cons h t =>
      exact ⟨'[', _, by rw [dumpsVal], by decide, by decide, by decide⟩
  | obj kvs =>
    cases kvs with
    | nil =>
      exact ⟨'\x7b', _, by rw [dumpsVal], by decide, by decide, by decide⟩
    | cons k v t =>
      exact ⟨'\x7b', _, by rw [dumpsVal], by decide, by decide, by decide⟩

theorem parseVal_cons_space (fuel : Nat) (s : List Char) :
    parseVal fuel (' ' :: s) = parseVal fuel s := by
  cases fuel with
  | zero => rfl
  | succ f => rw [parseVal, parseVal, skipWs_cons_ws ' ' s (by decide)]

theorem parseListItems_cons_space (fuel : Nat) (s : List Char) :
    parseListItems fuel (' ' :: s) = parseListItems fuel s := by
  cases fuel with
  | zero => rfl
  | succ f => rw [parseListItems, parseListItems, parseVal_cons_space]

theorem parseObjFields_cons_space (fuel : Nat) (s : List Char) :
    parseObjFields fuel (' ' :: s) = parseObjFields fuel s := by
  cases fuel with
  | zero => rfl
  | succ f => rw [parseObjFields, parseObjFields, skipWs_cons_ws ' ' s (by decide)]

theorem intToChars_head (i : Int) : ∃ c cs, intToChars i = c :: cs ∧
    isWsChar c = false ∧ c ≠ '"' ∧ c ≠ '\x7b' ∧ c ≠ '[' ∧ c ≠ 'n' ∧
    c ≠ 't' ∧ c ≠ 'f' := by
  unfold intToChars
  by_cases hneg : i < 0
  · rw [if_pos hneg]
    exact ⟨'-', _, rfl, by decide, by decide, by decide, by decide,
      by decide, by decide, by decide⟩
  · rw [if_neg hneg]
    obtain ⟨hne, hdig, -⟩ := natToDigits_facts i.toNat
    obtain ⟨c0, cs0, hds⟩ := List.exists_cons_of_ne_nil hne
    have hc0 : isDigitC c0 = true :=
      hdig c0 (by rw [hds]; exact List.mem_cons_self _ _)
    obtain ⟨hws, hq, hob, hbr, -, -, -, -, hn, ht, hf⟩ :=
      digit_head_props c0 hc0
    exact ⟨c0, cs0, hds, hws, hq, hob, hbr, hn, ht, hf⟩

theorem startsWithL_cons_ne (c p : Char) (cs ps : List Char) (h : c ≠ p) :
    startsWithL (c :: cs) (p :: ps) = false := by
  rw [startsWithL]
  simp [beq_eq_false_iff_ne.mpr h]

theorem parse_dumps_main : ∀ fuel : Nat,
    (∀ (v : Json) (rest : List Char), sizeV v ≤ fuel →
      (∀ c, rest.head? = some c →
        isDigitC c = false ∧ c ≠ '.' ∧ c ≠ 'e' ∧ c ≠ 'E') →
      parseVal fuel (dumpsVal v ++ rest) = some (stripDtV v, rest)) ∧
    (∀ (h : Json) (t : JsonList) (rest : List Char),
      sizeL (JsonList.cons h t) ≤ fuel →
      parseListItems fuel (dumpsVal h ++ (dumpsListRest t ++ ']' :: rest)) =
        some (stripDtL (JsonList.cons h t), rest)) ∧
    (∀ (k : List Char) (v : Json) (t : JsonObj) (rest : List Char),
      sizeO (JsonObj.cons k v t) ≤ fuel →
      parseObjFields fuel
          (dumpsField k v ++ (dumpsObjRest t ++ '\x7d' :: rest)) =
        some (stripDtO (JsonObj.cons k v t), rest)) := by
  intro fuel
  induction fuel with
  | zero =>
    refine ⟨?_, ?_, ?_⟩
    · intro v rest hsz _
      have := sizeV_pos v
      omega
    · intro h t rest hsz
      simp [sizeL] at hsz
    · intro k v t rest hsz
      simp [sizeO] at hsz
  | succ fuel ih =>
    obtain ⟨ihA, ihB, ihC⟩ := ih
    refine ⟨?_, ?_, ?_⟩
    · intro v rest hsize hguard
      cases v with
      | null =>
        rw [dumpsVal]
        simp only [List.cons_append, List.nil_append]
        rw [parseVal]
        rw [skipWs_cons_not_ws _ _ (by decide)]
        dsimp only
        rw [if_neg (by decide), if_neg (by decide), if_neg (by decide),
          if_pos (by simp [startsWithL])]
        rfl
      | bool b =>
        cases b with
        | true =>
          rw [dumpsVal]
          simp only [List.cons_append, List.nil_append]
          rw [parseVal]
          rw [skipWs_cons_not_ws _ _ (by decide)]
          dsimp only
          rw [if_neg (by decide), if_neg (by decide), if_neg (by decide),
            if_neg (by simp [startsWithL]), if_pos (by simp [startsWithL])]
          rfl
        | false =>
          rw [dumpsVal]
          simp only [List.cons_append, List.nil_append]
          rw [parseVal]
          rw [skipWs_cons_not_ws _ _ (by decide)]
          dsimp only
          rw [if_neg (by decide), if_neg (by decide), if_neg (by decide),
            if_neg (by simp [startsWithL]), if_neg (by simp [startsWithL]),
            if_pos (by simp [startsWithL])]
          rfl
      | num i =>
        rw [dumpsVal]
        obtain ⟨c0, cs0, hic, hws, hq, hob, hbr, hn, ht, hf⟩ :=
          intToChars_head i
        rw [hic]
        simp only [List.cons_append]
        rw [parseVal]
        rw [skipWs_cons_not_ws _ _ hws]
        dsimp only
        rw [if_neg hq, if_neg hob, if_neg hbr]
        rw [if_neg (by
          rw [show ("null".toList : List Char) = 'n' :: "ull".toList
            from rfl]
          rw [startsWithL_cons_ne _ _ _ _ hn]
          simp)]
        rw [if_neg (by
          rw [show ("true".toList : List Char) = 't' :: "rue".toList
            from rfl]
          rw [startsWithL_cons_ne _ _ _ _ ht]
          simp)]
        rw [if_neg (by
          rw [show ("false".toList : List Char) = 'f' :: "alse".toList
            from rfl]
          rw [startsWithL_cons_ne _ _ _ _ hf]
          simp)]
        rw [show c0 :: (cs0 ++ rest) = (c0 :: cs0) ++ rest from rfl, ← hic]
        rw [parseNumber_dumps i rest hguard]
        rfl
      | fnum f =>
        obtain ⟨⟨neg, ip, fp, ex⟩, hwf⟩ := f
        rw [dumpsVal]
        obtain ⟨hip, hipd, -, -, -⟩ := wfFloatLit_parts neg ip fp ex hwf
        cases neg with
        | true =>
          have hform : floatToChars ⟨true, ip, fp, ex⟩ ++ rest =
              '-' :: (ip ++ (fracChars fp ++ (expChars ex ++ rest))) := by
            rw [floatToChars]
            simp
          rw [hform]
          rw [parseVal]
          rw [skipWs_cons_not_ws _ _ (by decide)]
          dsimp only
          rw [if_neg (by decide), if_neg (by decide), if_neg (by decide)]
          rw [if_neg (by
            rw [show ("null".toList : List Char) = 'n' :: "ull".toList
              from rfl]
            rw [startsWithL_cons_ne _ _ _ _ (by decide)]
            simp)]
          rw [if_neg (by
            rw [show ("true".toList : List Char) = 't' :: "rue".toList
              from rfl]
            rw [startsWithL_cons_ne _ _ _ _ (by decide)]
            simp)]
          rw [if_neg (by
            rw [show ("false".toList : List Char) = 'f' :: "alse".toList
              from rfl]
            rw [startsWithL_cons_ne _ _ _ _ (by decide)]
            simp)]
          rw [← hform]
          rw [parseNumber_float true ip fp ex hwf rest hguard]
          rfl
        | false =>
          obtain ⟨c0, cs0, hds⟩ := List.exists_cons_of_ne_nil hip
          have hc0 : isDigitC c0 = true :=
            hipd c0 (by rw [hds]; exact List.mem_cons_self _ _)
          obtain ⟨hws, hq, hob, hbr, -, -, -, -, hn, ht, hf⟩ :=
            digit_head_props c0 hc0
          have hform : floatToChars ⟨false, ip, fp, ex⟩ ++ rest =
              c0 :: (cs0 ++ (fracChars fp ++ (expChars ex ++ rest))) := by
            rw [floatToChars, hds]
            simp
          rw [hform]
          rw [parseVal]
          rw [skipWs_cons_not_ws _ _ hws]
          dsimp only
          rw [if_neg hq, if_neg hob, if_neg hbr]
          rw [if_neg (by
            rw [show ("null".toList : List Char) = 'n' :: "ull".toList
              from rfl]
            rw [startsWithL_cons_ne _ _ _ _ hn]
            simp)]
          rw [if_neg (by
            rw [show ("true".toList : List Char) = 't' :: "rue".toList
              from rfl]
            rw [startsWithL_cons_ne _ _ _ _ ht]
            simp)]
          rw [if_neg (by
            rw [show ("false".toList : List Char) = 'f' :: "alse".toList
              from rfl]
            rw [startsWithL_cons_ne _ _ _ _ hf]
            simp)]
          rw [← hform]
          rw [parseNumber_float false ip fp ex hwf rest hguard]
          rfl
      | str s =>
        rw [dumpsVal]
        simp only [List.cons_append, List.append_assoc, List.nil_append,
          List.singleton_append]
        rw [parseVal]
        rw [skipWs_cons_not_ws _ _ (by decide)]
        dsimp only
        rw [if_pos rfl]
        rw [parseStringBody_escape s rest]
        rfl
      | dt d =>
        rw [dumpsVal]
        simp only [List.cons_append, List.append_assoc, List.nil_append,
          List.singleton_append]
        rw [parseVal]
        rw [skipWs_cons_not_ws _ _ (by decide)]
        dsimp only
        rw [if_pos rfl]
        rw [parseStringBody_escape (isoformat d) rest]
        rfl
      | arr xs =>
        cases xs with
        | nil =>
          rw [dumpsVal]
          simp only [List.cons_append, List.nil_append]
          rw [parseVal]
          rw [skipWs_cons_not_ws _ _ (by decide)]
          dsimp only
          rw [if_neg (by decide), if_neg (by decide), if_pos rfl]
          rw [skipWs_cons_not_ws _ _ (by decide)]
          dsimp only
          rw [if_pos rfl]
          rfl
        | cons h t =>
          rw [dumpsVal]
          simp only [List.cons_append, List.append_assoc,
            List.singleton_append, List.nil_append]
          rw [parseVal]
          rw [skipWs_cons_not_ws _ _ (by decide)]
          dsimp only
          rw [if_neg (by decide), if_neg (by decide), if_pos rfl]
          obtain ⟨c0, cs0, hdh, hws0, hbr0, hbc0⟩ := dumpsVal_head h
          have hform : dumpsVal h ++ (dumpsListRest t ++ ']' :: rest) =
              c0 :: (cs0 ++ (dumpsListRest t ++ ']' :: rest)) := by
            rw [hdh]
            simp
          rw [hform]
          rw [skipWs_cons_not_ws _ _ hws0]
          dsimp only
          rw [if_neg hbr0]
          rw [← hform]
          have hsz' : sizeL (JsonList.cons h t) ≤ fuel := by
            simp only [sizeV, sizeL] at hsize ⊢
            omega
          rw [ihB h t rest hsz']
          rfl
      | obj kvs =>
        cases kvs with
        | nil =>
          rw [dumpsVal]
          simp only [List.cons_append, List.nil_append]
          rw [parseVal]
          rw [skipWs_cons_not_ws _ _ (by decide)]
          dsimp only
          rw [if_neg (by decide), if_pos rfl]
          rw [skipWs_cons_not_ws _ _ (by decide)]
          dsimp only
          rw [if_pos rfl]
          rfl
        | cons k v t =>
          rw [dumpsVal]
          simp only [List.cons_append, List.append_assoc,
            List.singleton_append, List.nil_append]
          rw [parseVal]
          rw [skipWs_cons_not_ws _ _ (by decide)]
          dsimp only
          rw [if_neg (by decide), if_pos rfl]
          have hform : dumpsField k v ++ (dumpsObjRest t ++ '\x7d' :: rest) =
              '"' :: (escapeStr k ++ ('"' :: (':' :: (' ' ::
                (dumpsVal v ++ (dumpsObjRest t ++ '\x7d' :: rest)))))) := by
            rw [dumpsField]
            simp
          rw [hform]
          rw [skipWs_cons_not_ws _ _ (by decide)]
          dsimp only
          rw [if_neg (by decide)]
          rw [← hform]
          have hsz' : sizeO (JsonObj.cons k v t) ≤ fuel := by
            simp only [sizeV, sizeO] at hsize ⊢
            omega
          rw [ihC k v t rest hsz']
          rfl
    · intro h t rest hsz
      rw [parseListItems]
      have hguard : ∀ c, (dumpsListRest t ++ ']' :: rest).head? = some c →
          isDigitC c = false ∧ c ≠ '.' ∧ c ≠ 'e' ∧ c ≠ 'E' := by
        intro c hc
        cases t with
        | nil =>
          simp [dumpsListRest] at hc
          rw [← hc]
          decide
        | cons h' t' =>
          simp [dumpsListRest] at hc
          rw [← hc]
          decide
      have hszh : sizeV h ≤ fuel := by
        simp only [sizeL] at hsz
        omega
      rw [ihA h (dumpsListRest t ++ ']' :: rest) hszh hguard]
      dsimp only
      cases t with
      | nil =>
        rw [show dumpsListRest JsonList.nil ++ ']' :: rest = ']' :: rest
          from by rw [dumpsListRest]; rfl]
        rw [skipWs_cons_not_ws _ _ (by decide)]
        dsimp only
        rw [if_neg (by decide), if_pos rfl]
        rfl
      | cons h' t' =>
        rw [show dumpsListRest (JsonList.cons h' t') ++ ']' :: rest =
          ',' :: ' ' :: (dumpsVal h' ++ (dumpsListRest t' ++ ']' :: rest))
          from by rw [dumpsListRest]; simp]
        rw [skipWs_cons_not_ws _ _ (by decide)]
        dsimp only
        rw [if_pos rfl]
        rw [parseListItems_cons_space]
        have hsz' : sizeL (JsonList.cons h' t') ≤ fuel := by
          have := sizeV_pos h
          simp only [sizeL] at hsz ⊢
          omega
        rw [ihB h' t' rest hsz']
        rfl
    · intro k v t rest hsz
      rw [parseObjFields]
      have hform : dumpsField k v ++ (dumpsObjRest t ++ '\x7d' :: rest) =
          '"' :: (escapeStr k ++ ('"' :: (':' :: (' ' ::
            (dumpsVal v ++ (dumpsObjRest t ++ '\x7d' :: rest)))))) := by
        rw [dumpsField]
        simp
      rw [hform]
      rw [skipWs_cons_not_ws _ _ (by decide)]
      dsimp only
      rw [if_pos rfl]
      rw [parseStringBody_escape k]
      dsimp only
      rw [skipWs_cons_not_ws _ _ (by decide)]
      dsimp only
      rw [if_pos rfl]
      rw [parseVal_cons_space]
      have hguard : ∀ c, (dumpsObjRest t ++ '\x7d' :: rest).head? = some c →
          isDigitC c = false ∧ c ≠ '.' ∧ c ≠ 'e' ∧ c ≠ 'E' := by
        intro c hc
        cases t with
        | nil =>
          simp [dumpsObjRest] at hc
          rw [← hc]
          decide
        | cons k' v' t' =>
          simp [dumpsObjRest] at hc
          rw [← hc]
          decide
      have hszv : sizeV v ≤ fuel := by
        simp only [sizeO] at hsz
        omega
      rw [ihA v (dumpsObjRest t ++ '\x7d' :: rest) hszv hguard]
      dsimp only
      cases t with
      | nil =>
        rw [show dumpsObjRest JsonObj.nil ++ '\x7d' :: rest =
          '\x7d' :: rest from by rw [dumpsObjRest]; rfl]
        rw [skipWs_cons_not_ws _ _ (by decide)]
        dsimp only
        rw [if_neg (by decide), if_pos rfl]
        rfl
      | cons k' v' t' =>
        rw [show dumpsObjRest (JsonObj.cons k' v' t') ++ '\x7d' :: rest =
          ',' :: ' ' :: (dumpsField k' v' ++ (dumpsObjRest t' ++
          '\x7d' :: rest)) from by rw [dumpsObjRest]; simp]
        rw [skipWs_cons_not_ws _ _ (by decide)]
        dsimp only
        rw [if_pos rfl]
        rw [parseObjFields_cons_space]
        have hsz' : sizeO (JsonObj.cons k' v' t') ≤ fuel := by
          have := sizeV_pos v
          simp only [sizeO] at hsz ⊢
          omega
        rw [ihC k' v' t' rest hsz']
        rfl

theorem size_le_dumps_aux : ∀ N : Nat,
    (∀ v : Json, sizeV v ≤ N → sizeV v ≤ (dumpsVal v).length) ∧
    (∀ xs : JsonList, sizeL xs ≤ N → sizeL xs ≤ (dumpsListRest xs).length) ∧
    (∀ kvs : JsonObj, sizeO kvs ≤ N →
      sizeO kvs ≤ (dumpsObjRest kvs).length) := by
  intro N
  induction N with
  | zero =>
    refine ⟨?_, ?_, ?_⟩
    · intro v hv
      have := sizeV_pos v
      omega
    · intro xs hxs
      cases xs with
      | nil => simp [sizeL]
      | cons h t =>
        have := sizeV_pos h
        simp [sizeL] at hxs
    · intro kvs hkvs
      cases kvs with
      | nil => simp [sizeO]
      | cons k v t =>
        have := sizeV_pos v
        simp [sizeO] at hkvs
  | succ N ih =>
    obtain ⟨ihV, ihL, ihO⟩ := ih
    refine ⟨?_, ?_, ?_⟩
    · intro v hv
      cases v with
      | null => rw [dumpsVal]; simp [sizeV]
      | bool b =>
        cases b with
        | true => rw [dumpsVal]; simp [sizeV]
        | false => rw [dumpsVal]; simp [sizeV]
      | num i =>
        rw [dumpsVal]
        obtain ⟨c0, cs0, hic, -⟩ := intToChars_head i
        rw [hic]
        simp [sizeV]
      | fnum f =>
        rw [dumpsVal]
        obtain ⟨c0, cs0, hdf, -⟩ := dumpsVal_head (Json.fnum f)
        rw [dumpsVal] at hdf
        rw [hdf]
        simp [sizeV]
      | str s => rw [dumpsVal]; simp [sizeV]
      | dt d => rw [dumpsVal]; simp [sizeV]
      | arr xs =>
        cases xs with
        | nil => rw [dumpsVal]; simp [sizeV, sizeL]
        | cons h t =>
          rw [dumpsVal]
          simp only [sizeV, sizeL] at hv ⊢
          have h1 : sizeV h ≤ (dumpsVal h).length := ihV h (by omega)
          have h2 : sizeL t ≤ (dumpsListRest t).length := ihL t (by omega)
          simp only [List.length_cons, List.length_append]
          omega
      | obj kvs =>
        cases kvs with
        | nil => rw [dumpsVal]; simp [sizeV, sizeO]
        | cons k v t =>
          rw [dumpsVal, dumpsField]
          simp only [sizeV, sizeO] at hv ⊢
          have h1 : sizeV v ≤ (dumpsVal v).length := ihV v (by omega)
          have h2 : sizeO t ≤ (dumpsObjRest t).length := ihO t (by omega)
          simp only [List.length_cons, List.length_append]
          omega
    · intro xs hxs
      cases xs with
      | nil => simp [sizeL]
      | cons h t =>
        rw [dumpsListRest]
        simp only [sizeL] at hxs ⊢
        have h1 : sizeV h ≤ (dumpsVal h).length := ihV h (by omega)
        have h2 : sizeL t ≤ (dumpsListRest t).length := ihL t (by omega)
        simp only [List.length_cons, List.length_append]
        omega
    · intro kvs hkvs
      cases kvs with
      | nil => simp [sizeO]
      | cons k v t =>
        rw [dumpsObjRest, dumpsField]
        simp only [sizeO] at hkvs ⊢
        have h1 : sizeV v ≤ (dumpsVal v).length := ihV v (by omega)
        have h2 : sizeO t ≤ (dumpsObjRest t).length := ihO t (by omega)
        simp only [List.length_cons, List.length_append]
        omega

theorem size_le_dumps (v : Json) : sizeV v ≤ (dumpsVal v).length :=
  (size_le_dumps_aux (sizeV v)).1 v (Nat.le_refl _)

theorem loads_dumps (v : Json) : loads (dumpsVal v) = some (stripDtV v) := by
  unfold loads
  have hguard : ∀ c, ([] : List Char).head? = some c →
      isDigitC c = false ∧ c ≠ '.' ∧ c ≠ 'e' ∧ c ≠ 'E' := by
    intro c hc
    simp at hc
  have hsz : sizeV v ≤ (dumpsVal v).length + 1 := by
    have := size_le_dumps v
    omega
  have hmain :=
    (parse_dumps_main ((dumpsVal v).length + 1)).1 v [] hsz hguard
  rw [List.append_nil] at hmain
  rw [hmain]
  rfl

theorem decode_encode (m : Json) :
    decode_message (encode_message m) = some (stripDtV m) :=
  loads_dumps m

theorem lookupO_setO_self (k : List Char) (v : Json) :
    ∀ o : JsonObj, lookupO k (setO k v o) = some v
  | JsonObj.nil => by simp [setO, lookupO]
  | JsonObj.cons k' v' t => by
    by_cases hk : k' = k
    · rw [setO, if_pos hk, lookupO, if_pos rfl]
    · rw [setO, if_neg hk, lookupO, if_neg hk]
      exact lookupO_setO_self k v t

theorem removeKeyO_absent (k : List Char) :
    ∀ o : JsonObj, lookupO k o = none → removeKeyO k o = o
  | JsonObj.nil, _ => rfl
  | JsonObj.cons k' v' t, h => by
    rw [lookupO] at h
    by_cases hk : k' = k
    · rw [if_pos hk] at h
      exact absurd h (by simp)
    · rw [if_neg hk] at h
      rw [removeKeyO, if_neg hk, removeKeyO_absent k t h]

theorem removeKeyO_setO_absent (k : List Char) (v : Json) :
    ∀ o : JsonObj, lookupO k o = none → removeKeyO k (setO k v o) = o
  | JsonObj.nil, _ => by
    rw [setO, removeKeyO, if_pos rfl]
    rfl
  | JsonObj.cons k' v' t, h => by
    rw [lookupO] at h
    by_cases hk : k' = k
    · rw [if_pos hk] at h
      exact absurd h (by simp)
    · rw [if_neg hk] at h
      rw [setO, if_neg hk, removeKeyO, if_neg hk,
        removeKeyO_setO_absent k v t h]

theorem lookupO_setO_ne (k k' : List Char) (v : Json) (h : k' ≠ k) :
    ∀ o : JsonObj, lookupO k' (setO k v o) = lookupO k' o
  | JsonObj.nil => by
    simp [setO, lookupO, Ne.symm h]
  | JsonObj.cons a b t => by
    by_cases ha : a = k
    · rw [setO, if_pos ha, lookupO, lookupO, if_neg (Ne.symm h), ha,
        if_neg (Ne.symm h)]
    · rw [setO, if_neg ha, lookupO, lookupO]
      by_cases hak : a = k'
      · rw [if_pos hak, if_pos hak]
      · rw [if_neg hak, if_neg hak]
        exact lookupO_setO_ne k k' v h t

theorem verify_add_checksum (m : JsonObj)
    (h : lookupO checksumKey m = none) :
    verify_message_checksum (add_checksum m) = true := by
  unfold add_checksum verify_message_checksum
  have hr : removeKeyO checksumKey m = m := removeKeyO_absent _ _ h
  dsimp only
  rw [hr, lookupO_setO_self]
  dsimp only
  rw [removeKeyO_setO_absent _ _ _ h]
  exact beq_self_eq_true _

theorem stripDt_dtFree_aux : ∀ N : Nat,
    (∀ v : Json, sizeV v ≤ N → dtFreeV v = true → stripDtV v = v) ∧
    (∀ xs : JsonList, sizeL xs ≤ N → dtFreeL xs = true →
      stripDtL xs = xs) ∧
    (∀ kvs : JsonObj, sizeO kvs ≤ N → dtFreeO kvs = true →
      stripDtO kvs = kvs) := by
  intro N
  induction N with
  | zero =>
    refine ⟨?_, ?_, ?_⟩
    · intro v hv _
      have := sizeV_pos v
      omega
    · intro xs hxs _
      cases xs with
      | nil => rfl
      | cons h t =>
        have := sizeV_pos h
        simp [sizeL] at hxs
    · intro kvs hk _
      cases kvs with
      | nil => rfl
      | cons k v t =>
        have := sizeV_pos v
        simp [sizeO] at hk
  | succ N ih =>
    obtain ⟨ihV, ihL, ihO⟩ := ih
    refine ⟨?_, ?_, ?_⟩
    · intro v hv hdf
      cases v with
      | null => rfl
      | bool b => rfl
      | num n => rfl
      | fnum f => rfl
      | str s => rfl
      | dt d => simp [dtFreeV] at hdf
      | arr xs =>
        rw [stripDtV]
        rw [ihL xs (by simp [sizeV] at hv; omega)
          (by simpa [dtFreeV] using hdf)]
      | obj kvs =>
        rw [stripDtV]
        rw [ihO kvs (by simp [sizeV] at hv; omega)
          (by simpa [dtFreeV] using hdf)]
    · intro xs hxs hdf
      cases xs with
      | nil => rfl
      | cons h t =>
        simp only [dtFreeL, Bool.and_eq_true] at hdf
        rw [stripDtL, ihV h (by simp [sizeL] at hxs; omega) hdf.1,
          ihL t (by simp [sizeL] at hxs; omega) hdf.2]
    · intro kvs hk hdf
      cases kvs with
      | nil => rfl
      | cons k v t =>
        simp only [dtFreeO, Bool.and_eq_true] at hdf
        rw [stripDtO, ihV v (by simp [sizeO] at hk; omega) hdf.1,
          ihO t (by simp [sizeO] at hk; omega) hdf.2]

theorem stripDt_dtFree (v : Json) (h : dtFreeV v = true) : stripDtV v = v :=
  (stripDt_dtFree_aux (sizeV v)).1 v (Nat.le_refl _) h

theorem dtFreeO_setO (k : List Char) (v : Json) (hv : dtFreeV v = true) :
    ∀ o : JsonObj, dtFreeO o = true → dtFreeO (setO k v o) = true
  | JsonObj.nil, _ => by simp [setO, dtFreeO, hv]
  | JsonObj.cons k' v' t, h => by
    simp only [dtFreeO, Bool.and_eq_true] at h
    by_cases hk : k' = k
    · rw [setO, if_pos hk]
      simp [dtFreeO, hv, h.2]
    · rw [setO, if_neg hk]
      simp [dtFreeO, h.1, dtFreeO_setO k v hv t h.2]

theorem dtFreeO_create_message (ty mid ts : List Char) (sid : Int)
    (data : JsonObj) (rid : Option Int) (hdf : dtFreeO data = true) :
    dtFreeO (create_message ty sid data rid mid ts) = true := by
  unfold create_message add_checksum
  dsimp only
  have hbase : dtFreeO
      (JsonObj.cons "message_id".toList (Json.str mid)
        (JsonObj.cons "type".toList (Json.str ty)
          (JsonObj.cons "sender_id".toList (Json.num sid)
            (JsonObj.cons "timestamp".toList (Json.str ts)
              (JsonObj.cons "data".toList (Json.obj data)
                JsonObj.nil))))) = true := by
    simp [dtFreeO, dtFreeV, hdf]
  apply dtFreeO_setO _ _ (by simp [dtFreeV])
  cases rid with
  | none => exact hbase
  | some r =>
    dsimp only
    exact dtFreeO_setO _ _ (by simp [dtFreeV]) _ hbase

/-- Claim C4 counterexample: the concrete message `cexMessage`, whose
data payload carries a datetime, does not decode back to itself after
encoding — `DateTimeEncoder` serializes the datetime as its
`isoformat()` string and `json.loads` returns that string — so the
claimed round-trip identity fails on it. -/
theorem claim_C4_counterexample :
    ¬ (decode_message (encode_message (Json.obj cexMessage)) =
        some (Json.obj cexMessage) ∧
       verify_message_checksum cexMessage = true) := by
  intro hc
  have h1 := hc.1
  rw [decode_encode] at h1
  have h3 : stripDtV (Json.obj cexMessage) = Json.obj cexMessage :=
    Option.some.inj h1
  have h4 := congrArg payloadDtFree h3
  have h5 : payloadDtFree (stripDtV (Json.obj cexMessage)) = true := by
    decide
  have h6 : payloadDtFree (Json.obj cexMessage) = false := by
    decide
  rw [h5, h6] at h4
  exact absurd h4 (by decide)

/-- Claim C4 (amended): every message `create_message` produces from a
datetime-free data dictionary — any type, sender id, optional receiver
id, at any message id and timestamp the environment supplies, with data
values drawn from null, booleans, integers, floats, strings, lists and
nested dictionaries — decodes back to itself after encoding, and passes
checksum verification. (A datetime value in the data is returned as its
`isoformat()` string instead, as the counterexample shows; the checksum
conjunct needs no datetime-freeness.) -/
theorem claim_C4_amended (message_type message_id timestamp : List Char)
    (sender_id : Int) (data : JsonObj) (receiver_id : Option Int)
    (hdf : dtFreeO data = true) :
    decode_message (encode_message (Json.obj
        (create_message message_type sender_id data receiver_id
          message_id timestamp))) =
      some (Json.obj (create_message message_type sender_id data
        receiver_id message_id timestamp)) ∧
    verify_message_checksum (create_message message_type sender_id data
        receiver_id message_id timestamp) = true := by
  constructor
  · rw [decode_encode]
    have h1 : dtFreeV (Json.obj (create_message message_type sender_id
        data receiver_id message_id timestamp)) = true := by
      simp only [dtFreeV]
      exact dtFreeO_create_message _ _ _ _ _ _ hdf
    rw [stripDt_dtFree _ h1]
  · unfold create_message
    have hb : lookupO checksumKey
        (JsonObj.cons "message_id".toList (Json.str message_id)
          (JsonObj.cons "type".toList (Json.str message_type)
            (JsonObj.cons "sender_id".toList (Json.num sender_id)
              (JsonObj.cons "timestamp".toList (Json.str timestamp)
                (JsonObj.cons "data".toList (Json.obj data)
                  JsonObj.nil))))) = none := by
      rw [lookupO, if_neg (by decide), lookupO, if_neg (by decide),
        lookupO, if_neg (by decide), lookupO, if_neg (by decide),
        lookupO, if_neg (by decide), lookupO]
    cases receiver_id with
    | none =>
      dsimp only
      exact verify_add_checksum _ hb
    | some rid =>
      dsimp only
      refine verify_add_checksum _ ?_
      rw [lookupO_setO_ne ("receiver_id".toList) checksumKey
        (Json.num rid) (by decide)]
      exact hb

theorem claim_C4_amended_witness :
    dtFreeO wData = true ∧
    (decode_message (encode_message (Json.obj
        (create_message "QUERY_RESPONSE".toList 1 wData none
          "m2".toList "t2".toList))) =
      some (Json.obj (create_message "QUERY_RESPONSE".toList 1 wData none
        "m2".toList "t2".toList)) ∧
     verify_message_checksum (create_message "QUERY_RESPONSE".toList 1
        wData none "m2".toList "t2".toList) = true) :=
  ⟨by decide,
    claim_C4_amended "QUERY_RESPONSE".toList "m2".toList "t2".toList 1
      wData none (by decide)⟩

end DDB
